import Mathlib

/-!
Verification of the xlsx data-binding package (boltegg/xlsx).

Strings are modelled as `List Char`.  Go library helpers
(`strings.TrimSpace`, `strconv.ParseInt`, `strconv.Atoi`, ...) are
embedded as executable Lean functions faithful to their behaviour on the
inputs this package feeds them (ASCII text).  The two places where the Go
code routes through IEEE-754 floats (`parseFloat` and the Excel date
serial path) are modelled as parameters, and every theorem quantifies
over them; no claim below depends on float behaviour.
-/

namespace Xlsx

/-- Char list of a string literal (notation helper for concrete inputs). -/
def cs (s : String) : List Char := s.data

/-- ASCII decimal digit test, as used throughout the Go sources
(`c >= '0' && c <= '9'`). -/
def isDigitC (c : Char) : Bool := '0' ≤ c ∧ c ≤ '9'

/-- Numeric value of an ASCII digit char. -/
def digVal (c : Char) : Nat := c.toNat - '0'.toNat

/-- Value of a big-endian decimal digit string (the number a digit list
denotes). -/
def digitsToNat (ds : List Char) : Nat := ds.foldl (fun a c => a * 10 + digVal c) 0

/-- Whitespace set of Go's `unicode.IsSpace` restricted to ASCII, which is
the alphabet excelize cell text is trimmed over. -/
def isSpaceC (c : Char) : Bool :=
  c = ' ' ∨ c = '\t' ∨ c = '\n' ∨ c = '\x0b' ∨ c = '\x0c' ∨ c = '\r'

/-- Model of `strings.TrimSpace`: drop whitespace from both ends. -/
def trimSpace (s : List Char) : List Char :=
  ((s.dropWhile isSpaceC).reverse.dropWhile isSpaceC).reverse

/-- Unicode simple case folding restricted to the alphabets appearing in
this package (ASCII letters and the Cyrillic range used by `parseBool`). -/
def toLowerC (c : Char) : Char :=
  if 'A' ≤ c ∧ c ≤ 'Z' then Char.ofNat (c.toNat + 32)
  else if 'А' ≤ c ∧ c ≤ 'Я' then Char.ofNat (c.toNat + 32)
  else c

/-- Model of `strings.ToLower` on the package's alphabet. -/
def toLowerS (s : List Char) : List Char := s.map toLowerC

/-- Model of `strings.EqualFold` on the package's alphabet. -/
def eqFold (a b : List Char) : Bool := toLowerS a = toLowerS b

/- ### Basic digit-string lemmas -/

theorem digitsToNat_aux (ds : List Char) (a : Nat) :
    ds.foldl (fun a c => a * 10 + digVal c) a =
      a * 10 ^ ds.length + digitsToNat ds := by
  induction ds generalizing a with
  | nil => simp [digitsToNat]
  | cons c cs ih =>
    simp only [List.foldl_cons, List.length_cons, digitsToNat]
    rw [ih (a * 10 + digVal c), ih (0 * 10 + digVal c)]
    ring

theorem digitsToNat_append (xs ys : List Char) :
    digitsToNat (xs ++ ys) = digitsToNat xs * 10 ^ ys.length + digitsToNat ys := by
  unfold digitsToNat
  rw [List.foldl_append, digitsToNat_aux]
  rfl

theorem digitsToNat_cons (c : Char) (ds : List Char) :
    digitsToNat (c :: ds) = digVal c * 10 ^ ds.length + digitsToNat ds := by
  have h := digitsToNat_append [c] ds
  simpa [digitsToNat, digVal] using h

theorem digVal_lt_ten {c : Char} (h : isDigitC c = true) : digVal c < 10 := by
  simp only [isDigitC, decide_eq_true_eq, Bool.decide_and, Bool.and_eq_true] at h
  obtain ⟨h1, h2⟩ := h
  have h1' : (48 : Nat) ≤ c.toNat := h1
  have h2' : c.toNat ≤ (57 : Nat) := h2
  simp only [digVal]
  have e0 : '0'.toNat = 48 := rfl
  rw [e0]
  omega

theorem digit_char_bounds {c : Char} (h : isDigitC c = true) :
    (48 : Nat) ≤ c.toNat ∧ c.toNat ≤ (57 : Nat) := by
  simp only [isDigitC, decide_eq_true_eq, Bool.decide_and, Bool.and_eq_true] at h
  exact ⟨h.1, h.2⟩

theorem digitsToNat_lt (ds : List Char) (h : ds.all isDigitC = true) :
    digitsToNat ds < 10 ^ ds.length := by
  induction ds with
  | nil => simp [digitsToNat]
  | cons c cs ih =>
    simp only [List.all_cons, Bool.and_eq_true] at h
    have hc := digVal_lt_ten h.1
    have hcs := ih h.2
    rw [digitsToNat_cons]
    simp only [List.length_cons, pow_succ]
    calc digVal c * 10 ^ cs.length + digitsToNat cs
        < digVal c * 10 ^ cs.length + 10 ^ cs.length := by omega
      _ = (digVal c + 1) * 10 ^ cs.length := by ring
      _ ≤ 10 ^ cs.length * 10 := by
          have : digVal c + 1 ≤ 10 := hc
          calc (digVal c + 1) * 10 ^ cs.length ≤ 10 * 10 ^ cs.length :=
                Nat.mul_le_mul_right _ this
            _ = 10 ^ cs.length * 10 := by ring

theorem digVal_zero_iff {c : Char} (h : isDigitC c = true) :
    digVal c = 0 ↔ c = '0' := by
  simp only [isDigitC, decide_eq_true_eq, Bool.decide_and, Bool.and_eq_true] at h
  obtain ⟨h1, h2⟩ := h
  have h1' : '0'.toNat ≤ c.toNat := h1
  constructor
  · intro hz
    simp only [digVal] at hz
    have hn : c.toNat = '0'.toNat := by omega
    apply Char.eq_of_val_eq
    first
    | exact UInt32.eq_of_toNat_eq hn
    | exact UInt32.ext hn
  · intro hc; subst hc; simp [digVal]

theorem digitsToNat_eq_zero_iff (ds : List Char) (h : ds.all isDigitC = true) :
    digitsToNat ds = 0 ↔ ds.all (· = '0') = true := by
  induction ds with
  | nil => simp [digitsToNat]
  | cons c cs ih =>
    simp only [List.all_cons, Bool.and_eq_true] at h ⊢
    rw [digitsToNat_cons]
    constructor
    · intro hz
      have hpow : 0 < 10 ^ cs.length := pow_pos (by norm_num) _
      have hz1 : digVal c * 10 ^ cs.length = 0 := by omega
      have hz2 : digitsToNat cs = 0 := by omega
      have hdv : digVal c = 0 := by
        rcases Nat.mul_eq_zero.mp hz1 with hh | hh
        · exact hh
        · omega
      constructor
      · simpa using (digVal_zero_iff h.1).mp hdv
      · exact (ih h.2).mp hz2
    · intro ⟨hc, hcs⟩
      have hc0 : c = '0' := by simpa using hc
      have hd0 : digVal c = 0 := (digVal_zero_iff h.1).mpr hc0
      rw [hd0, (ih h.2).mpr hcs]
      ring

/-- Dropping leading `'0'` chars preserves the denoted value. -/
theorem digitsToNat_dropWhile_zero (ds : List Char) :
    digitsToNat (ds.dropWhile (· = '0')) = digitsToNat ds := by
  induction ds with
  | nil => rfl
  | cons c cs ih =>
    by_cases hc : c = '0'
    · subst hc
      rw [List.dropWhile_cons_of_pos (by simp)]
      rw [ih, digitsToNat_cons]
      simp [digVal]
    · rw [List.dropWhile_cons_of_neg (by simpa using hc)]

/- ### Models of the Go standard-library helpers used by unmarshal.go -/

/-- First occurrence split: `some (before, after)` where `after` excludes the
matched char.  Models `strings.IndexAny` / `strings.IndexByte` followed by the
two slicings `s[:idx]` and `s[idx+1:]`. -/
def splitAtFirst (p : Char → Bool) : List Char → Option (List Char × List Char)
  | [] => none
  | c :: rest =>
    if p c then some ([], rest)
    else
      match splitAtFirst p rest with
      | some (a, b) => some (c :: a, b)
      | none => none

/-- Model of `strconv.Atoi` (i.e. `ParseInt(s, 10, 0)` on a 64-bit platform):
optional sign, at least one digit, nothing else, result within int64 range. -/
def atoi (s : List Char) : Option Int :=
  match s with
  | [] => none
  | c :: rest =>
    if c = '+' then
      if rest ≠ [] ∧ rest.all isDigitC ∧ digitsToNat rest ≤ 2 ^ 63 - 1 then
        some (digitsToNat rest)
      else none
    else if c = '-' then
      if rest ≠ [] ∧ rest.all isDigitC ∧ digitsToNat rest ≤ 2 ^ 63 then
        some (-(digitsToNat rest : Int))
      else none
    else
      if (c :: rest).all isDigitC ∧ digitsToNat (c :: rest) ≤ 2 ^ 63 - 1 then
        some (digitsToNat (c :: rest))
      else none

/-- Model of `strconv.ParseInt(s, 10, 64)`: optional sign, at least one
digit, nothing else, result within the signed 64-bit range. -/
def parseInt64 (s : List Char) : Option Int :=
  atoi s

/-- Model of `strconv.ParseUint(s, 10, 64)`: no sign permitted, at least one
digit, nothing else, result within the unsigned 64-bit range. -/
def parseUint64 (s : List Char) : Option Nat :=
  match s with
  | [] => none
  | _ =>
    if s.all isDigitC ∧ digitsToNat s ≤ 2 ^ 64 - 1 then
      some (digitsToNat s)
    else none

/-- Model of `strings.TrimLeft(s, "0")`. -/
def trimLeftZeros (s : List Char) : List Char := s.dropWhile (· = '0')

/- ### toIntegerDecimalString (src/unmarshal.go:538-615) -/

/-- First half of the final normalization of `toIntegerDecimalString`
(lines 603-609): re-trim leading zeros, keeping at least one digit. -/
def idsTrim (ip : List Char) : List Char :=
  if ip ≠ ['0'] then
    (if trimLeftZeros ip = [] then ['0'] else trimLeftZeros ip)
  else ip

/-- Second half of the final normalization of `toIntegerDecimalString`
(lines 610-614): rewrite `-0` to `0` and prepend the sign. -/
def idsFinish2 (sign ip2 : List Char) : List Char :=
  (if sign = ['-'] ∧ ip2 = ['0'] then [] else sign) ++ ip2

/-- Final normalization steps of `toIntegerDecimalString` (lines 603-614). -/
def idsFinish (sign ip : List Char) : List Char :=
  idsFinish2 sign (idsTrim ip)

/-- Decimal-shift half of `toIntegerDecimalString` (src/unmarshal.go:570-614):
`intPart0` is the mantissa with the decimal point removed, `fracLen` the
number of digits that were after the point, `ex` the parsed exponent. -/
def toIDSBack (sign intPart0 : List Char) (fracLen : Nat) (ex : Int) : Option (List Char) :=
  let intPart1 := trimLeftZeros intPart0
  let intPart2 := if intPart1 = [] then ['0'] else intPart1
  let totalExp : Int := ex - fracLen
  if totalExp < 0 then
    let k := (-totalExp).toNat
    if intPart2 = ['0'] then some (sign ++ ['0'])
    else if intPart2.length < k then none
    else if (intPart2.drop (intPart2.length - k)).all (· = '0') then
      let ip := intPart2.take (intPart2.length - k)
      some (idsFinish sign (if ip = [] then ['0'] else ip))
    else none
  else
    some (idsFinish sign (intPart2 ++ List.replicate totalExp.toNat '0'))

/-- Decimal-point split of `toIntegerDecimalString` (src/unmarshal.go:563-569),
after sign and exponent extraction: `s3` is the mantissa text. -/
def toIDSCore (sign s3 : List Char) (ex : Int) : Option (List Char) :=
  match splitAtFirst (fun c => c = '.') s3 with
  | some ab => toIDSBack sign (ab.1 ++ ab.2) ab.2.length ex
  | none => toIDSBack sign s3 0 ex

/-- `toIntegerDecimalString` (src/unmarshal.go:538-615): convert a numeric
string that may contain a decimal point and/or scientific notation into a
base-10 integer string, iff the value is an exact integer. -/
def toIntegerDecimalString (s0 : List Char) : Option (List Char) :=
  let s1 := trimSpace s0
  if s1 = [] then none
  else
    let sign : List Char := if s1.head? = some '-' then ['-'] else []
    let s2 : List Char :=
      if s1.head? = some '+' ∨ s1.head? = some '-' then s1.tail else s1
    match splitAtFirst (fun c => c = 'e' ∨ c = 'E') s2 with
    | some me =>
      match atoi me.2 with
      | some e => toIDSCore sign me.1 e
      | none => none
    | none => toIDSCore sign s2 0

/-- `parseRawNumberToInt64` (src/unmarshal.go:503-515). -/
def parseRawNumberToInt64 (s0 : List Char) : Option Int :=
  let s := trimSpace s0
  if s = [] then none
  else
    match toIntegerDecimalString s with
    | some is => parseInt64 is
    | none => none

/-- `parseRawNumberToUint64` (src/unmarshal.go:518-533). -/
def parseRawNumberToUint64 (s0 : List Char) : Option Nat :=
  let s := trimSpace s0
  if s = [] then none
  else if s.head? = some '-' then none
  else
    match toIntegerDecimalString s with
    | some is => parseUint64 is
    | none => none

/- ### Lemmas about the string helpers -/

theorem dropWhile_eq_self_of_all {p : Char → Bool} {l : List Char}
    (h : ∀ c ∈ l, p c = false) : l.dropWhile p = l := by
  cases l with
  | nil => rfl
  | cons c cs =>
    rw [List.dropWhile_cons_of_neg]
    simp [h c (by simp)]

theorem trimSpace_eq_self {l : List Char} (h : ∀ c ∈ l, isSpaceC c = false) :
    trimSpace l = l := by
  unfold trimSpace
  rw [dropWhile_eq_self_of_all h]
  rw [dropWhile_eq_self_of_all (fun c hc => h c (List.mem_reverse.mp hc))]
  exact List.reverse_reverse l

theorem digitsToNat_replicate_zero (k : Nat) :
    digitsToNat (List.replicate k '0') = 0 := by
  induction k with
  | zero => rfl
  | succ n ih =>
    rw [List.replicate_succ, digitsToNat_cons, ih]
    simp [digVal]

theorem trimLeftZeros_all_digits {l : List Char} (h : l.all isDigitC = true) :
    (trimLeftZeros l).all isDigitC = true := by
  induction l with
  | nil => rfl
  | cons c cs ih =>
    simp only [List.all_cons, Bool.and_eq_true] at h
    unfold trimLeftZeros
    by_cases hc : c = '0'
    · rw [List.dropWhile_cons_of_pos (by simp [hc])]
      exact ih h.2
    · rw [List.dropWhile_cons_of_neg (by simpa using hc)]
      simp [List.all_cons, h.1, h.2]

theorem trimLeftZeros_head {l : List Char} {c : Char} {rest : List Char}
    (h : trimLeftZeros l = c :: rest) : c ≠ '0' := by
  induction l with
  | nil => simp [trimLeftZeros] at h
  | cons a as ih =>
    unfold trimLeftZeros at h
    by_cases ha : a = '0'
    · rw [List.dropWhile_cons_of_pos (by simp [ha])] at h
      exact ih h
    · rw [List.dropWhile_cons_of_neg (by simpa using ha)] at h
      cases h
      simpa using ha

theorem trimLeftZeros_nil_val {l : List Char} (h : trimLeftZeros l = []) :
    digitsToNat l = 0 := by
  have := digitsToNat_dropWhile_zero l
  rw [show l.dropWhile (· = '0') = trimLeftZeros l from rfl, h] at this
  simpa [digitsToNat] using this.symm

theorem dtn_ne_zero_of_head {c : Char} {rest : List Char}
    (h : (c :: rest).all isDigitC = true) (hc : c ≠ '0') :
    digitsToNat (c :: rest) ≠ 0 := by
  intro h0
  have := (digitsToNat_eq_zero_iff _ h).mp h0
  simp only [List.all_cons, Bool.and_eq_true] at this
  exact hc (by simpa using this.1)

/- ### splitAtFirst lemmas -/

theorem splitAtFirst_eq_none {p : Char → Bool} {l : List Char}
    (h : ∀ c ∈ l, p c = false) : splitAtFirst p l = none := by
  induction l with
  | nil => rfl
  | cons c cs ih =>
    unfold splitAtFirst
    rw [if_neg (by simp [h c (by simp)])]
    rw [ih (fun d hd => h d (by simp [hd]))]

theorem splitAtFirst_cons_pos {p : Char → Bool} {c : Char} {l : List Char}
    (h : p c = true) : splitAtFirst p (c :: l) = some ([], l) := by
  unfold splitAtFirst
  rw [if_pos h]

theorem splitAtFirst_cons_eq (p : Char → Bool) (c : Char) (l : List Char) :
    splitAtFirst p (c :: l) =
      if p c then some ([], l)
      else
        match splitAtFirst p l with
        | some ab => some (c :: ab.1, ab.2)
        | none => none := by
  conv_lhs => unfold splitAtFirst
  cases hl : splitAtFirst p l with
  | none => rfl
  | some ab => cases ab; rfl

theorem splitAtFirst_append_left {p : Char → Bool} {xs : List Char} (ys : List Char)
    (h : ∀ c ∈ xs, p c = false) :
    splitAtFirst p (xs ++ ys) =
      match splitAtFirst p ys with
      | some ab => some (xs ++ ab.1, ab.2)
      | none => none := by
  induction xs with
  | nil =>
    simp only [List.nil_append]
    cases hys : splitAtFirst p ys with
    | none => rfl
    | some ab => rfl
  | cons c cs ih =>
    have hc : p c = false := h c (by simp)
    have ih2 := ih (fun d hd => h d (by simp [hd]))
    rw [List.cons_append, splitAtFirst_cons_eq, if_neg (by simp [hc]), ih2]
    cases hys : splitAtFirst p ys with
    | none => rfl
    | some ab => rfl

/- ### Digit-char disequalities -/

theorem digit_ne_marks {c : Char} (h : isDigitC c = true) :
    c ≠ '+' ∧ c ≠ '-' ∧ c ≠ '.' ∧ c ≠ 'e' ∧ c ≠ 'E' ∧ isSpaceC c = false := by
  obtain ⟨hb1, hb2⟩ := digit_char_bounds h
  refine ⟨?_, ?_, ?_, ?_, ?_, ?_⟩
  · intro hc; subst hc; exact absurd hb1 (by decide)
  · intro hc; subst hc; exact absurd hb1 (by decide)
  · intro hc; subst hc; exact absurd hb1 (by decide)
  · intro hc; subst hc; exact absurd hb2 (by decide)
  · intro hc; subst hc; exact absurd hb2 (by decide)
  · by_contra hsp
    rw [Bool.not_eq_false] at hsp
    simp only [isSpaceC, Bool.decide_or, Bool.or_eq_true, decide_eq_true_eq] at hsp
    rcases hsp with h1 | h1 | h1 | h1 | h1 | h1 <;>
      (subst h1; first | exact absurd hb1 (by decide) | exact absurd hb2 (by decide))

/- ### atoi evaluation lemmas -/

theorem atoi_cons (c : Char) (rest : List Char) :
    atoi (c :: rest) =
      if c = '+' then
        if rest ≠ [] ∧ rest.all isDigitC = true ∧ digitsToNat rest ≤ 2 ^ 63 - 1 then
          some ((digitsToNat rest : Int))
        else none
      else if c = '-' then
        if rest ≠ [] ∧ rest.all isDigitC = true ∧ digitsToNat rest ≤ 2 ^ 63 then
          some (-(digitsToNat rest : Int))
        else none
      else
        if (c :: rest).all isDigitC = true ∧ digitsToNat (c :: rest) ≤ 2 ^ 63 - 1 then
          some ((digitsToNat (c :: rest) : Int))
        else none := rfl

theorem atoi_digits {ds : List Char} (hne : ds ≠ []) (hd : ds.all isDigitC = true)
    (hb : digitsToNat ds ≤ 2 ^ 63 - 1) :
    atoi ds = some ((digitsToNat ds : Int)) := by
  cases ds with
  | nil => exact absurd rfl hne
  | cons c rest =>
    have hc : isDigitC c = true := by
      simp only [List.all_cons, Bool.and_eq_true] at hd; exact hd.1
    obtain ⟨h1, h2, _⟩ := digit_ne_marks hc
    rw [atoi_cons, if_neg h1, if_neg h2, if_pos ⟨hd, hb⟩]

theorem atoi_plus_digits {ds : List Char} (hne : ds ≠ []) (hd : ds.all isDigitC = true)
    (hb : digitsToNat ds ≤ 2 ^ 63 - 1) :
    atoi ('+' :: ds) = some ((digitsToNat ds : Int)) := by
  rw [atoi_cons, if_pos rfl, if_pos ⟨hne, hd, hb⟩]

theorem atoi_minus_digits {ds : List Char} (hne : ds ≠ []) (hd : ds.all isDigitC = true)
    (hb : digitsToNat ds ≤ 2 ^ 63) :
    atoi ('-' :: ds) = some (-(digitsToNat ds : Int)) := by
  rw [atoi_cons, if_neg (by decide), if_pos rfl, if_pos ⟨hne, hd, hb⟩]

theorem parseUint64_digits {ds : List Char} (hne : ds ≠ []) (hd : ds.all isDigitC = true)
    (hb : digitsToNat ds ≤ 2 ^ 64 - 1) :
    parseUint64 ds = some (digitsToNat ds) := by
  cases ds with
  | nil => exact absurd rfl hne
  | cons c rest =>
    unfold parseUint64
    rw [if_pos ⟨hd, hb⟩]

/- ### idsFinish evaluation -/

/-- Signed value of a digit string under an optional leading minus. -/
def condSign (sign : List Char) (n : Nat) : Int :=
  if sign = ['-'] then -(n : Int) else (n : Int)

theorem all_digits_take {t : List Char} (i : Nat) (h : t.all isDigitC = true) :
    (t.take i).all isDigitC = true := by
  rw [List.all_eq_true] at h ⊢
  exact fun c hc => h c (List.mem_of_mem_take hc)

theorem all_digits_drop {t : List Char} (i : Nat) (h : t.all isDigitC = true) :
    (t.drop i).all isDigitC = true := by
  rw [List.all_eq_true] at h ⊢
  exact fun c hc => h c (List.mem_of_mem_drop hc)

theorem replicate_zero_all_digits (k : Nat) :
    (List.replicate k '0').all isDigitC = true := by
  rw [List.all_eq_true]
  intro c hc
  rw [List.eq_of_mem_replicate hc]
  decide

theorem dtn_single_zero : digitsToNat ['0'] = 0 := by decide

theorem atoi_single_zero : atoi ['0'] = some 0 := by decide

/-- `idsTrim` preserves the value, digits-only shape, and nonemptiness. -/
theorem idsTrim_spec {ds : List Char} (hd : ds.all isDigitC = true) (hne : ds ≠ []) :
    (idsTrim ds).all isDigitC = true ∧ idsTrim ds ≠ [] ∧
      digitsToNat (idsTrim ds) = digitsToNat ds := by
  unfold idsTrim
  by_cases h0 : ds = ['0']
  · rw [if_neg (by simp [h0])]
    exact ⟨hd, hne, rfl⟩
  · rw [if_pos h0]
    cases ht : trimLeftZeros ds with
    | nil =>
      rw [if_pos rfl]
      refine ⟨by decide, by simp, ?_⟩
      rw [dtn_single_zero, trimLeftZeros_nil_val ht]
    | cons c r =>
      rw [if_neg (by simp)]
      have htv : digitsToNat (c :: r) = digitsToNat ds := by
        have hh := digitsToNat_dropWhile_zero ds
        rw [show ds.dropWhile (· = '0') = trimLeftZeros ds from rfl, ht] at hh
        exact hh
      exact ⟨ht ▸ trimLeftZeros_all_digits hd, by simp, htv⟩

/-- Evaluation of `idsFinish2` composed with `ParseInt(·,10,64)`. -/
theorem idsFinish2_parseInt64 {sign ip2 : List Char}
    (hd : ip2.all isDigitC = true) (hne : ip2 ≠ [])
    (hs : sign = [] ∨ sign = ['-'])
    (hb1 : sign = [] → digitsToNat ip2 ≤ 2 ^ 63 - 1)
    (hb2 : sign = ['-'] → digitsToNat ip2 ≤ 2 ^ 63) :
    parseInt64 (idsFinish2 sign ip2) = some (condSign sign (digitsToNat ip2)) := by
  unfold idsFinish2
  by_cases hz : sign = ['-'] ∧ ip2 = ['0']
  · rw [if_pos hz]
    rw [hz.1, hz.2, dtn_single_zero]
    simp only [List.nil_append, condSign]
    simpa [parseInt64] using atoi_single_zero
  · rw [if_neg hz]
    rcases hs with h | h <;> subst h
    · simp only [List.nil_append]
      rw [show parseInt64 ip2 = atoi ip2 from rfl,
        atoi_digits hne hd (hb1 rfl)]
      simp [condSign]
    · cases ip2 with
      | nil => exact absurd rfl hne
      | cons c r =>
        simp only [List.cons_append, List.nil_append]
        rw [show parseInt64 ('-' :: (c :: r)) = atoi ('-' :: (c :: r)) from rfl,
          atoi_minus_digits (by simp) hd (hb2 rfl)]
        simp [condSign]

/-- Evaluation of `idsFinish` composed with `ParseInt(·,10,64)`:
for a nonempty digit string under an optional minus sign, the normalized
output parses back to the signed value, within the int64 range. -/
theorem idsFinish_parseInt64 {sign ds : List Char}
    (hd : ds.all isDigitC = true) (hne : ds ≠ [])
    (hs : sign = [] ∨ sign = ['-'])
    (hb1 : sign = [] → digitsToNat ds ≤ 2 ^ 63 - 1)
    (hb2 : sign = ['-'] → digitsToNat ds ≤ 2 ^ 63) :
    parseInt64 (idsFinish sign ds) = some (condSign sign (digitsToNat ds)) := by
  obtain ⟨k1, k2, k3⟩ := idsTrim_spec hd hne
  unfold idsFinish
  rw [idsFinish2_parseInt64 k1 k2 hs (fun h => k3 ▸ hb1 h) (fun h => k3 ▸ hb2 h), k3]

/-- Unsigned counterpart of `idsFinish_parseInt64`. -/
theorem idsFinish_parseUint64 {ds : List Char}
    (hd : ds.all isDigitC = true) (hne : ds ≠ [])
    (hb : digitsToNat ds ≤ 2 ^ 64 - 1) :
    parseUint64 (idsFinish [] ds) = some (digitsToNat ds) := by
  obtain ⟨k1, k2, k3⟩ := idsTrim_spec hd hne
  unfold idsFinish idsFinish2
  rw [if_neg (by simp)]
  simp only [List.nil_append]
  rw [parseUint64_digits k2 k1 (k3 ▸ hb), k3]

/- ### Numeric-literal class: decimal / scientific strings and their values -/

/-- Exponent part of a scientific-notation literal: the marker char
(`e` or `E`), an optional sign mark, and the exponent digits. -/
structure ExpPart where
  ec : Char
  es : List Char
  eds : List Char

/-- Well-formedness of an exponent part. -/
def expWF (p : ExpPart) : Prop :=
  (p.ec = 'e' ∨ p.ec = 'E') ∧ (p.es = [] ∨ p.es = ['+'] ∨ p.es = ['-']) ∧
    p.eds ≠ [] ∧ p.eds.all isDigitC = true ∧ digitsToNat p.eds < 2 ^ 63

/-- Signed value of an exponent part. -/
def expVal (p : ExpPart) : Int :=
  if p.es = ['-'] then -(digitsToNat p.eds : Int) else (digitsToNat p.eds : Int)

/-- Text of the exponent suffix (empty when the literal has none). -/
def exSuffix (ex : Option ExpPart) : List Char :=
  match ex with | none => [] | some p => p.ec :: (p.es ++ p.eds)

/-- Signed value of the optional exponent (0 when absent). -/
def exShift (ex : Option ExpPart) : Int :=
  match ex with | none => 0 | some p => expVal p

/-- Well-formedness of the optional exponent. -/
def exWFOpt (ex : Option ExpPart) : Prop :=
  match ex with | none => True | some p => expWF p

/-- The raw text of a decimal or scientific numeric literal: optional minus,
integer digits, optional fractional digits, optional exponent part. -/
def mkNumStr (neg : Bool) (ids fds : List Char) (ex : Option ExpPart) : List Char :=
  (if neg then ['-'] else []) ++ ids ++ (if fds = [] then [] else '.' :: fds) ++
    exSuffix ex

/-- Well-formedness of the literal pieces. -/
def NumLitWF (ids fds : List Char) (ex : Option ExpPart) : Prop :=
  ids ≠ [] ∧ ids.all isDigitC = true ∧ fds.all isDigitC = true ∧ exWFOpt ex

/-- All mantissa digits, with the decimal point removed. -/
def litMant (ids fds : List Char) : Nat := digitsToNat (ids ++ fds)

/-- Power-of-ten shift of the literal once the decimal point is removed. -/
def litExp (fds : List Char) (ex : Option ExpPart) : Int :=
  exShift ex - fds.length

/-- The literal denotes exactly the integer `v`
(`mantissa · 10^shift = v`, stated multiplicatively so that it makes
sense for negative shifts as well). -/
def DenotesInt (neg : Bool) (ids fds : List Char) (ex : Option ExpPart) (v : Int) : Prop :=
  condSign (if neg then ['-'] else []) (litMant ids fds) * 10 ^ (litExp fds ex).toNat
    = v * 10 ^ (-(litExp fds ex)).toNat

/- ### Correctness of toIDSBack / toIDSCore -/

theorem toIDSCore_front (sign ids fds : List Char) (ex : Int)
    (hids : ids.all isDigitC = true) :
    toIDSCore sign (ids ++ (if fds = [] then [] else '.' :: fds)) ex =
      toIDSBack sign (ids ++ fds) fds.length ex := by
  have hnd : ∀ c ∈ ids, (fun c => decide (c = '.')) c = false := by
    intro c hc
    have hcd : isDigitC c = true := by
      rw [List.all_eq_true] at hids; exact hids c hc
    simpa using (digit_ne_marks hcd).2.2.1
  by_cases hf : fds = []
  · subst hf
    rw [if_pos rfl, List.append_nil]
    unfold toIDSCore
    rw [splitAtFirst_eq_none hnd]
    simp
  · rw [if_neg hf]
    unfold toIDSCore
    rw [splitAtFirst_append_left ('.' :: fds) hnd,
      splitAtFirst_cons_pos (by simp)]
    simp

/-- The `intPart1`/`intPart2` normalization step inside `toIDSBack`. -/
theorem intPart2_spec {ip0 : List Char} (hd : ip0.all isDigitC = true) :
    (if trimLeftZeros ip0 = [] then ['0'] else trimLeftZeros ip0).all isDigitC = true ∧
      (if trimLeftZeros ip0 = [] then ['0'] else trimLeftZeros ip0) ≠ [] ∧
      digitsToNat (if trimLeftZeros ip0 = [] then ['0'] else trimLeftZeros ip0) =
        digitsToNat ip0 := by
  cases ht : trimLeftZeros ip0 with
  | nil =>
    rw [if_pos rfl]
    exact ⟨by decide, by simp, by rw [dtn_single_zero, trimLeftZeros_nil_val ht]⟩
  | cons c r =>
    rw [if_neg (by simp)]
    have htv : digitsToNat (c :: r) = digitsToNat ip0 := by
      have hh := digitsToNat_dropWhile_zero ip0
      rw [show ip0.dropWhile (· = '0') = trimLeftZeros ip0 from rfl, ht] at hh
      exact hh
    exact ⟨ht ▸ trimLeftZeros_all_digits hd, by simp, htv⟩

theorem parse_sign_zero_int {sign : List Char} (hs : sign = [] ∨ sign = ['-']) :
    parseInt64 (sign ++ ['0']) = some 0 := by
  rcases hs with h | h <;> subst h <;> decide

/-- Central correctness of the decimal-shift computation: if the mantissa
digits times the power-of-ten shift equal `n` exactly, `toIDSBack` succeeds
and its output parses back to `n` (signed and unsigned variants). -/
theorem toIDSBack_digits (sign ip0 : List Char) (fracLen : Nat) (ex : Int) (n : Nat)
    (hd : ip0.all isDigitC = true)
    (hv : digitsToNat ip0 * 10 ^ (ex - (fracLen : Int)).toNat
          = n * 10 ^ (-(ex - (fracLen : Int))).toNat) :
    ∃ out, toIDSBack sign ip0 fracLen ex = some out ∧
      ((sign = [] ∨ sign = ['-']) → (sign = [] → n ≤ 2 ^ 63 - 1) →
        (sign = ['-'] → n ≤ 2 ^ 63) → parseInt64 out = some (condSign sign n)) ∧
      (sign = [] → n ≤ 2 ^ 64 - 1 → parseUint64 out = some n) := by
  simp only [toIDSBack]
  by_cases hE : ex - (fracLen : Int) < 0
  · rw [if_pos hE]
    have he1 : (ex - (fracLen : Int)).toNat = 0 := by omega
    rw [he1, pow_zero, mul_one] at hv
    set k := (-(ex - (fracLen : Int))).toNat with hk
    have hk1 : 1 ≤ k := by omega
    have hp : 0 < 10 ^ k := pow_pos (by norm_num) k
    cases ht : trimLeftZeros ip0 with
    | nil =>
      have hM0 : digitsToNat ip0 = 0 := trimLeftZeros_nil_val ht
      have hn0 : n = 0 := by
        rw [hM0] at hv
        rcases Nat.mul_eq_zero.mp hv.symm with h | h
        · exact h
        · exact absurd h hp.ne'
      rw [if_pos (rfl : ([] : List Char) = [])]
      rw [if_pos (rfl : (['0'] : List Char) = ['0'])]
      refine ⟨sign ++ ['0'], rfl, ?_, ?_⟩
      · intro hs _ _
        rw [parse_sign_zero_int hs, hn0]
        rcases hs with h | h <;> subst h <;> simp [condSign]
      · intro hsign _
        subst hsign
        rw [hn0]
        decide
    | cons c r =>
      have hc0 : c ≠ '0' := trimLeftZeros_head ht
      have htd : (c :: r).all isDigitC = true := ht ▸ trimLeftZeros_all_digits hd
      have htv : digitsToNat (c :: r) = digitsToNat ip0 := by
        have hh := digitsToNat_dropWhile_zero ip0
        rw [show ip0.dropWhile (· = '0') = trimLeftZeros ip0 from rfl, ht] at hh
        exact hh
      have hMne : digitsToNat ip0 ≠ 0 := by
        rw [← htv]; exact dtn_ne_zero_of_head htd hc0
      have hn1 : 1 ≤ n := by
        rcases Nat.eq_zero_or_pos n with h0 | h0
        · rw [h0, zero_mul] at hv; exact absurd hv hMne
        · exact h0
      have hMge : 10 ^ k ≤ digitsToNat ip0 := by
        rw [hv]
        calc 10 ^ k = 1 * 10 ^ k := (one_mul _).symm
          _ ≤ n * 10 ^ k := Nat.mul_le_mul_right _ hn1
      have hlen : digitsToNat (c :: r) < 10 ^ (c :: r).length := digitsToNat_lt _ htd
      have hkl : k < (c :: r).length := by
        by_contra hc2
        push_neg at hc2
        have hpp : (10 : Nat) ^ (c :: r).length ≤ 10 ^ k :=
          Nat.pow_le_pow_right (by norm_num) hc2
        omega
      have hne2 : c :: r ≠ ['0'] := by
        intro hcon; cases hcon; exact hc0 rfl
      rw [if_neg (show ¬(c :: r = []) by simp)]
      rw [if_neg hne2]
      rw [if_neg (show ¬((c :: r).length < k) by omega)]
      set len := (c :: r).length with hlen2
      have hsplit : (c :: r).take (len - k) ++ (c :: r).drop (len - k) = c :: r :=
        List.take_append_drop _ _
      have hbl : ((c :: r).drop (len - k)).length = k := by
        rw [List.length_drop]; omega
      have hdec : digitsToNat (c :: r) =
          digitsToNat ((c :: r).take (len - k)) * 10 ^ k +
            digitsToNat ((c :: r).drop (len - k)) := by
        conv_lhs => rw [← hsplit]
        rw [digitsToNat_append, hbl]
      have hbd : ((c :: r).drop (len - k)).all isDigitC = true := all_digits_drop _ htd
      have hbl10 : digitsToNat ((c :: r).drop (len - k)) < 10 ^ k := by
        have hx := digitsToNat_lt _ hbd
        rw [hbl] at hx
        exact hx
      have heq : digitsToNat ((c :: r).take (len - k)) * 10 ^ k +
          digitsToNat ((c :: r).drop (len - k)) = n * 10 ^ k := by
        rw [← hdec, htv, hv]
      have hA_le : digitsToNat ((c :: r).take (len - k)) ≤ n := by
        have hmul : digitsToNat ((c :: r).take (len - k)) * 10 ^ k ≤ n * 10 ^ k := by
          omega
        exact Nat.le_of_mul_le_mul_right (by simpa [Nat.mul_comm] using hmul) hp
      have hB0 : digitsToNat ((c :: r).drop (len - k)) = 0 := by
        have hBr : digitsToNat ((c :: r).drop (len - k)) = (n - digitsToNat ((c :: r).take (len - k))) * 10 ^ k := by
          rw [Nat.sub_mul]; omega
        rcases Nat.eq_zero_or_pos (n - digitsToNat ((c :: r).take (len - k))) with h0 | h0
        · rw [h0, zero_mul] at hBr; exact hBr
        · exfalso
          have hge : 10 ^ k ≤ (n - digitsToNat ((c :: r).take (len - k))) * 10 ^ k := by
            calc 10 ^ k = 1 * 10 ^ k := (one_mul _).symm
              _ ≤ _ := Nat.mul_le_mul_right _ h0
          omega
      have hall0 : ((c :: r).drop (len - k)).all (· = '0') = true :=
        (digitsToNat_eq_zero_iff _ hbd).mp hB0
      rw [if_pos hall0]
      have hAv : digitsToNat ((c :: r).take (len - k)) = n :=
        Nat.eq_of_mul_eq_mul_right hp (by omega)
      have hane : (c :: r).take (len - k) ≠ [] := by
        intro hnil
        have hl0 := congrArg List.length hnil
        rw [List.length_take] at hl0
        simp only [List.length_nil] at hl0
        omega
      rw [if_neg hane]
      refine ⟨_, rfl, ?_, ?_⟩
      · intro hs hb1 hb2
        rw [idsFinish_parseInt64 (all_digits_take _ htd) hane hs
          (fun h => by rw [hAv]; exact hb1 h) (fun h => by rw [hAv]; exact hb2 h), hAv]
      · intro hsign hb
        subst hsign
        rw [idsFinish_parseUint64 (all_digits_take _ htd) hane (by rw [hAv]; exact hb), hAv]
  · rw [if_neg hE]
    have hk0 : (-(ex - (fracLen : Int))).toNat = 0 := by omega
    rw [hk0, pow_zero, mul_one] at hv
    set e1 := (ex - (fracLen : Int)).toNat with he1
    obtain ⟨k2, k3, k4⟩ := intPart2_spec hd
    set ip2 := (if trimLeftZeros ip0 = [] then ['0'] else trimLeftZeros ip0) with hip2
    have hd2 : (ip2 ++ List.replicate e1 '0').all isDigitC = true := by
      rw [List.all_append, k2, replicate_zero_all_digits]
      rfl
    have hne2 : ip2 ++ List.replicate e1 '0' ≠ [] := by
      intro hcon
      exact k3 (List.append_eq_nil.mp hcon).1
    have hval : digitsToNat (ip2 ++ List.replicate e1 '0') = n := by
      rw [digitsToNat_append, digitsToNat_replicate_zero, List.length_replicate,
        k4, Nat.add_zero, hv]
    refine ⟨_, rfl, ?_, ?_⟩
    · intro hs hb1 hb2
      rw [idsFinish_parseInt64 hd2 hne2 hs
        (fun h => by rw [hval]; exact hb1 h) (fun h => by rw [hval]; exact hb2 h), hval]
    · intro hsign hb
      subst hsign
      rw [idsFinish_parseUint64 hd2 hne2 (by rw [hval]; exact hb), hval]

/-- When the shift is negative and the mantissa is not divisible by the
corresponding power of ten — i.e. the literal is not an exact integer —
`toIDSBack` fails (it never approximates). -/
theorem toIDSBack_none (sign ip0 : List Char) (fracLen : Nat) (ex : Int)
    (hd : ip0.all isDigitC = true)
    (hE : ex - (fracLen : Int) < 0)
    (hnd : ¬ (10 ^ (-(ex - (fracLen : Int))).toNat ∣ digitsToNat ip0)) :
    toIDSBack sign ip0 fracLen ex = none := by
  simp only [toIDSBack]
  rw [if_pos hE]
  set k := (-(ex - (fracLen : Int))).toNat with hk
  cases ht : trimLeftZeros ip0 with
  | nil =>
    exfalso
    exact hnd (by rw [trimLeftZeros_nil_val ht]; exact dvd_zero _)
  | cons c r =>
    have hc0 : c ≠ '0' := trimLeftZeros_head ht
    have htd : (c :: r).all isDigitC = true := ht ▸ trimLeftZeros_all_digits hd
    have htv : digitsToNat (c :: r) = digitsToNat ip0 := by
      have hh := digitsToNat_dropWhile_zero ip0
      rw [show ip0.dropWhile (· = '0') = trimLeftZeros ip0 from rfl, ht] at hh
      exact hh
    have hne2 : c :: r ≠ ['0'] := by
      intro hcon; cases hcon; exact hc0 rfl
    rw [if_neg (show ¬(c :: r = []) by simp)]
    rw [if_neg hne2]
    by_cases hlk : (c :: r).length < k
    · rw [if_pos hlk]
    · rw [if_neg hlk]
      push_neg at hlk
      set len := (c :: r).length with hlen2
      rw [if_neg ?check]
      case check =>
        intro hall
        apply hnd
        have hbd : ((c :: r).drop (len - k)).all isDigitC = true := all_digits_drop _ htd
        have hB0 : digitsToNat ((c :: r).drop (len - k)) = 0 :=
          (digitsToNat_eq_zero_iff _ hbd).mpr hall
        have hbl : ((c :: r).drop (len - k)).length = k := by
          rw [List.length_drop]; omega
        have hdec : digitsToNat (c :: r) =
            digitsToNat ((c :: r).take (len - k)) * 10 ^ k +
              digitsToNat ((c :: r).drop (len - k)) := by
          conv_lhs => rw [← List.take_append_drop (len - k) (c :: r)]
          rw [digitsToNat_append, hbl]
        rw [← htv, hdec, hB0, Nat.add_zero]
        exact Dvd.intro _ (Nat.mul_comm _ _)

/- ### Running toIntegerDecimalString on a literal -/

theorem mkNumStr_noSpace (neg : Bool) (ids fds : List Char) (ex : Option ExpPart)
    (h : NumLitWF ids fds ex) :
    ∀ c ∈ mkNumStr neg ids fds ex, isSpaceC c = false := by
  obtain ⟨hidne, hids, hfds, hex⟩ := h
  intro c hc
  simp only [mkNumStr, List.append_assoc, List.mem_append] at hc
  rcases hc with h1 | h1 | h1 | h1
  · cases neg <;> simp at h1
    subst h1; decide
  · rw [List.all_eq_true] at hids
    exact (digit_ne_marks (hids c h1)).2.2.2.2.2
  · by_cases hf : fds = []
    · rw [if_pos hf] at h1; simp at h1
    · rw [if_neg hf] at h1
      rcases List.mem_cons.mp h1 with h2 | h2
      · subst h2; decide
      · rw [List.all_eq_true] at hfds
        exact (digit_ne_marks (hfds c h2)).2.2.2.2.2
  · cases ex with
    | none => simp [exSuffix] at h1
    | some p =>
      obtain ⟨hpec, hpes, hpne, hpd, hpb⟩ := hex
      rw [show exSuffix (some p) = p.ec :: (p.es ++ p.eds) from rfl] at h1
      rcases List.mem_cons.mp h1 with h2 | h2
      · subst h2
        rcases hpec with h3 | h3 <;> rw [h3] <;> decide
      · rcases List.mem_append.mp h2 with h3 | h3
        · rcases hpes with h4 | h4 | h4 <;> rw [h4] at h3 <;> simp at h3 <;>
            (subst h3; decide)
        · rw [List.all_eq_true] at hpd
          exact (digit_ne_marks (hpd c h3)).2.2.2.2.2

/-- Sign and exponent splitting steps of `toIntegerDecimalString`
(src/unmarshal.go:539-562), abstracted over the precomputed pieces. -/
theorem toIDS_split (s0 : List Char)
    (htrim : trimSpace s0 = s0) (hne : ¬(s0 = []))
    (sign s2 : List Char)
    (hsign : (if s0.head? = some '-' then ['-'] else ([] : List Char)) = sign)
    (hs2 : (if s0.head? = some '+' ∨ s0.head? = some '-' then s0.tail else s0) = s2) :
    toIntegerDecimalString s0 =
      (match splitAtFirst (fun c => c = 'e' ∨ c = 'E') s2 with
       | some me =>
         match atoi me.2 with
         | some e => toIDSCore sign me.1 e
         | none => none
       | none => toIDSCore sign s2 0) := by
  simp only [toIntegerDecimalString]
  rw [htrim, if_neg hne, hsign, hs2]

/-- The mantissa-plus-exponent suffix of a literal (everything after the
optional sign char). -/
def litBody (ids fds : List Char) (ex : Option ExpPart) : List Char :=
  (ids ++ (if fds = [] then [] else '.' :: fds)) ++ exSuffix ex

/-- Processing of the literal body after sign extraction: the exponent is
split off and parsed, and the decimal-shift computation runs on the
mantissa. -/
theorem toIDS_after_split (sign ids fds : List Char) (ex : Option ExpPart)
    (hids : ids.all isDigitC = true) (hfds : fds.all isDigitC = true)
    (hex : exWFOpt ex) :
    (match splitAtFirst (fun c => c = 'e' ∨ c = 'E') (litBody ids fds ex) with
     | some me =>
       match atoi me.2 with
       | some e => toIDSCore sign me.1 e
       | none => none
     | none => toIDSCore sign (litBody ids fds ex) 0) =
      toIDSBack sign (ids ++ fds) fds.length (exShift ex) := by
  have hpd : ∀ c ∈ ids ++ (if fds = [] then [] else '.' :: fds),
      (fun c => decide (c = 'e' ∨ c = 'E')) c = false := by
    intro c hc
    rcases List.mem_append.mp hc with h1 | h1
    · rw [List.all_eq_true] at hids
      obtain ⟨_, _, _, he, hE2, _⟩ := digit_ne_marks (hids c h1)
      simp [he, hE2]
    · by_cases hf : fds = []
      · rw [if_pos hf] at h1; simp at h1
      · rw [if_neg hf] at h1
        rcases List.mem_cons.mp h1 with h2 | h2
        · subst h2; decide
        · rw [List.all_eq_true] at hfds
          obtain ⟨_, _, _, he, hE2, _⟩ := digit_ne_marks (hfds c h2)
          simp [he, hE2]
  cases ex with
  | none =>
    unfold litBody exSuffix exShift
    rw [List.append_nil, splitAtFirst_eq_none hpd]
    exact toIDSCore_front _ _ _ _ hids
  | some p =>
    obtain ⟨hpec, hpes, hpne, hpdig, hpb⟩ := hex
    unfold litBody exSuffix exShift
    rw [splitAtFirst_append_left (p.ec :: (p.es ++ p.eds)) hpd,
      splitAtFirst_cons_pos (by rcases hpec with h3 | h3 <;> simp [h3])]
    simp only [List.append_nil]
    have hatoi : atoi (p.es ++ p.eds) = some (expVal p) := by
      rcases hpes with h4 | h4 | h4 <;> rw [h4]
      · rw [List.nil_append, atoi_digits hpne hpdig (by omega)]
        simp [expVal, h4]
      · rw [List.singleton_append, atoi_plus_digits hpne hpdig (by omega)]
        simp [expVal, h4]
      · rw [List.singleton_append, atoi_minus_digits hpne hpdig (by omega)]
        simp [expVal, h4]
    rw [hatoi]
    exact toIDSCore_front _ _ _ _ hids

theorem mkNumStr_eq_body (neg : Bool) (ids fds : List Char) (ex : Option ExpPart) :
    mkNumStr neg ids fds ex = (if neg then ['-'] else []) ++ litBody ids fds ex := by
  unfold mkNumStr litBody
  rw [List.append_assoc (if neg then ['-'] else []) ids,
    List.append_assoc (if neg then ['-'] else [])]

/-- `toIntegerDecimalString` on a well-formed literal reduces to the
decimal-shift computation on the mantissa digits. -/
theorem toIDS_mkNumStr (neg : Bool) (ids fds : List Char) (ex : Option ExpPart)
    (h : NumLitWF ids fds ex) :
    toIntegerDecimalString (mkNumStr neg ids fds ex) =
      toIDSBack (if neg then ['-'] else []) (ids ++ fds) fds.length (exShift ex) := by
  obtain ⟨hidne, hids, hfds, hex⟩ := h
  have htrim : trimSpace (mkNumStr neg ids fds ex) = mkNumStr neg ids fds ex :=
    trimSpace_eq_self (mkNumStr_noSpace neg ids fds ex ⟨hidne, hids, hfds, hex⟩)
  obtain ⟨i, ids2, hid⟩ : ∃ i ids2, ids = i :: ids2 := by
    cases ids with
    | nil => exact absurd rfl hidne
    | cons a b => exact ⟨a, b, rfl⟩
  have hidig : isDigitC i = true := by
    rw [List.all_eq_true] at hids
    exact hids i (by rw [hid]; simp)
  have hbody : litBody ids fds ex =
      i :: ((ids2 ++ (if fds = [] then [] else '.' :: fds)) ++ exSuffix ex) := by
    unfold litBody
    rw [hid, List.cons_append, List.cons_append]
  cases neg with
  | false =>
    have hform : mkNumStr false ids fds ex = litBody ids fds ex := by
      rw [mkNumStr_eq_body]
      rw [if_neg (by simp), List.nil_append]
    have hhead : (mkNumStr false ids fds ex).head? = some i := by
      rw [hform, hbody]
      rfl
    have hne : ¬(mkNumStr false ids fds ex = []) := by
      intro hcon
      rw [hcon] at hhead
      simp at hhead
    have hsign : (if (mkNumStr false ids fds ex).head? = some '-' then ['-']
        else ([] : List Char)) = [] := by
      rw [hhead, if_neg (by simpa using (digit_ne_marks hidig).2.1)]
    have hs2 : (if (mkNumStr false ids fds ex).head? = some '+' ∨
          (mkNumStr false ids fds ex).head? = some '-'
        then (mkNumStr false ids fds ex).tail else mkNumStr false ids fds ex) =
        litBody ids fds ex := by
      rw [hhead, if_neg (by
        simp only [Option.some.injEq]
        push_neg
        exact ⟨(digit_ne_marks hidig).1, (digit_ne_marks hidig).2.1⟩)]
      exact hform
    rw [toIDS_split _ htrim hne _ _ hsign hs2]
    rw [if_neg (by simp)]
    exact toIDS_after_split [] ids fds ex hids hfds hex
  | true =>
    have hform : mkNumStr true ids fds ex = '-' :: litBody ids fds ex := by
      rw [mkNumStr_eq_body]
      rw [if_pos rfl, List.singleton_append]
    have hhead : (mkNumStr true ids fds ex).head? = some '-' := by
      rw [hform]
      rfl
    have hne : ¬(mkNumStr true ids fds ex = []) := by
      intro hcon
      rw [hcon] at hhead
      simp at hhead
    have hsign : (if (mkNumStr true ids fds ex).head? = some '-' then ['-']
        else ([] : List Char)) = ['-'] := by
      rw [hhead, if_pos rfl]
    have hs2 : (if (mkNumStr true ids fds ex).head? = some '+' ∨
          (mkNumStr true ids fds ex).head? = some '-'
        then (mkNumStr true ids fds ex).tail else mkNumStr true ids fds ex) =
        litBody ids fds ex := by
      rw [hhead, if_pos (Or.inr rfl), hform]
      rfl
    rw [toIDS_split _ htrim hne _ _ hsign hs2]
    rw [if_pos rfl]
    exact toIDS_after_split ['-'] ids fds ex hids hfds hex

theorem mkNumStr_ne_nil (neg : Bool) (ids fds : List Char) (ex : Option ExpPart)
    (hidne : ids ≠ []) : mkNumStr neg ids fds ex ≠ [] := by
  rw [mkNumStr_eq_body]
  intro hcon
  rcases List.append_eq_nil.mp hcon with ⟨_, h2⟩
  unfold litBody at h2
  rcases List.append_eq_nil.mp h2 with ⟨h3, _⟩
  rcases List.append_eq_nil.mp h3 with ⟨h4, _⟩
  exact hidne h4

theorem mkNumStr_false_head (ids fds : List Char) (ex : Option ExpPart)
    (i : Char) (ids2 : List Char) (hid : ids = i :: ids2) :
    (mkNumStr false ids fds ex).head? = some i := by
  rw [mkNumStr_eq_body, if_neg (by simp), List.nil_append]
  unfold litBody
  rw [hid, List.cons_append, List.cons_append]
  rfl

/-- Raw-path int64 extraction is exact: a well-formed literal that denotes
an integer `v` in the int64 range is parsed back to exactly `v` —
no floating point is involved anywhere in this pipeline. -/
theorem mkNumStr_parseRawInt64 (neg : Bool) (ids fds : List Char) (ex : Option ExpPart)
    (v : Int) (h : NumLitWF ids fds ex) (hden : DenotesInt neg ids fds ex v)
    (hlo : -(2 : Int) ^ 63 ≤ v) (hhi : v ≤ 2 ^ 63 - 1) :
    parseRawNumberToInt64 (mkNumStr neg ids fds ex) = some v := by
  have htrim := trimSpace_eq_self (mkNumStr_noSpace neg ids fds ex h)
  have hne : mkNumStr neg ids fds ex ≠ [] := mkNumStr_ne_nil neg ids fds ex h.1
  have hd : (ids ++ fds).all isDigitC = true := by
    rw [List.all_append, h.2.1, h.2.2.1]
    rfl
  simp only [parseRawNumberToInt64]
  rw [htrim, if_neg hne, toIDS_mkNumStr neg ids fds ex h]
  unfold DenotesInt litExp litMant at hden
  cases neg with
  | false =>
    simp only [Bool.false_eq_true, if_false, condSign, reduceCtorEq] at hden ⊢
    have hb0 : (0 : Int) < 10 ^ (-(exShift ex - (fds.length : Int))).toNat :=
      pow_pos (by norm_num) _
    have hv0 : 0 ≤ v := by
      by_contra hvneg
      push_neg at hvneg
      have hlhs : (0 : Int) ≤ (digitsToNat (ids ++ fds) : Int) *
          10 ^ (exShift ex - (fds.length : Int)).toNat :=
        mul_nonneg (by positivity) (by positivity)
      nlinarith
    have hveq : digitsToNat (ids ++ fds) * 10 ^ (exShift ex - (fds.length : Int)).toNat
        = v.toNat * 10 ^ (-(exShift ex - (fds.length : Int))).toNat := by
      have hcast : ((digitsToNat (ids ++ fds) * 10 ^ (exShift ex - (fds.length : Int)).toNat : Nat) : Int)
          = ((v.toNat * 10 ^ (-(exShift ex - (fds.length : Int))).toNat : Nat) : Int) := by
        push_cast
        rw [Int.toNat_of_nonneg hv0]
        exact hden
      exact_mod_cast hcast
    obtain ⟨out, hout, hInt, _⟩ :=
      toIDSBack_digits [] (ids ++ fds) fds.length (exShift ex) v.toNat hd hveq
    rw [hout]
    rw [show (match some out with
        | some is => parseInt64 is
        | none => none) = parseInt64 out from rfl]
    rw [hInt (Or.inl rfl) (fun _ => by omega) (fun hh => by simp at hh)]
    unfold condSign
    rw [if_neg (by simp)]
    rw [Int.toNat_of_nonneg hv0]
  | true =>
    simp only [condSign, if_pos, reduceIte] at hden ⊢
    have hb0 : (0 : Int) < 10 ^ (-(exShift ex - (fds.length : Int))).toNat :=
      pow_pos (by norm_num) _
    have hv0 : v ≤ 0 := by
      by_contra hvpos
      push_neg at hvpos
      have hlhs : -((digitsToNat (ids ++ fds) : Int)) *
          10 ^ (exShift ex - (fds.length : Int)).toNat ≤ 0 := by
        apply mul_nonpos_of_nonpos_of_nonneg
        · simp
        · positivity
      nlinarith
    have hveq : digitsToNat (ids ++ fds) * 10 ^ (exShift ex - (fds.length : Int)).toNat
        = (-v).toNat * 10 ^ (-(exShift ex - (fds.length : Int))).toNat := by
      have hcast : ((digitsToNat (ids ++ fds) * 10 ^ (exShift ex - (fds.length : Int)).toNat : Nat) : Int)
          = (((-v).toNat * 10 ^ (-(exShift ex - (fds.length : Int))).toNat : Nat) : Int) := by
        push_cast
        rw [Int.toNat_of_nonneg (by omega : 0 ≤ -v)]
        nlinarith [hden]
      exact_mod_cast hcast
    obtain ⟨out, hout, hInt, _⟩ :=
      toIDSBack_digits ['-'] (ids ++ fds) fds.length (exShift ex) (-v).toNat hd hveq
    rw [hout]
    rw [show (match some out with
        | some is => parseInt64 is
        | none => none) = parseInt64 out from rfl]
    rw [hInt (Or.inr rfl) (fun hh => by simp at hh) (fun _ => by omega)]
    unfold condSign
    rw [if_pos rfl]
    congr 1
    omega

/-- Raw-path uint64 extraction is exact, up to the full unsigned range. -/
theorem mkNumStr_parseRawUint64 (ids fds : List Char) (ex : Option ExpPart)
    (u : Nat) (h : NumLitWF ids fds ex) (hden : DenotesInt false ids fds ex (u : Int))
    (hhi : u ≤ 2 ^ 64 - 1) :
    parseRawNumberToUint64 (mkNumStr false ids fds ex) = some u := by
  have htrim := trimSpace_eq_self (mkNumStr_noSpace false ids fds ex h)
  have hne : mkNumStr false ids fds ex ≠ [] := mkNumStr_ne_nil false ids fds ex h.1
  obtain ⟨i, ids2, hid⟩ : ∃ i ids2, ids = i :: ids2 := by
    cases hcc : ids with
    | nil => exact absurd hcc h.1
    | cons a b => exact ⟨a, b, rfl⟩
  have hidig : isDigitC i = true := by
    have hids := h.2.1
    rw [List.all_eq_true] at hids
    exact hids i (by rw [hid]; simp)
  have hd : (ids ++ fds).all isDigitC = true := by
    rw [List.all_append, h.2.1, h.2.2.1]
    rfl
  simp only [parseRawNumberToUint64]
  rw [htrim, if_neg hne]
  rw [mkNumStr_false_head ids fds ex i ids2 hid]
  rw [if_neg (by simpa using (digit_ne_marks hidig).2.1)]
  rw [toIDS_mkNumStr false ids fds ex h]
  unfold DenotesInt litExp litMant at hden
  simp only [Bool.false_eq_true, if_false, condSign, reduceCtorEq] at hden ⊢
  have hveq : digitsToNat (ids ++ fds) * 10 ^ (exShift ex - (fds.length : Int)).toNat
      = u * 10 ^ (-(exShift ex - (fds.length : Int))).toNat := by
    have hcast : ((digitsToNat (ids ++ fds) * 10 ^ (exShift ex - (fds.length : Int)).toNat : Nat) : Int)
        = ((u * 10 ^ (-(exShift ex - (fds.length : Int))).toNat : Nat) : Int) := by
      push_cast
      exact hden
    exact_mod_cast hcast
  obtain ⟨out, hout, _, hUint⟩ :=
    toIDSBack_digits [] (ids ++ fds) fds.length (exShift ex) u hd hveq
  rw [hout]
  rw [show (match some out with
      | some is => parseUint64 is
      | none => none) = parseUint64 out from rfl]
  exact hUint rfl hhi

/-- When a well-formed literal does not denote any exact integer,
`toIntegerDecimalString` fails instead of approximating. -/
theorem mkNumStr_nonint (neg : Bool) (ids fds : List Char) (ex : Option ExpPart)
    (h : NumLitWF ids fds ex)
    (hno : ¬ ∃ v : Int, DenotesInt neg ids fds ex v) :
    toIntegerDecimalString (mkNumStr neg ids fds ex) = none := by
  rw [toIDS_mkNumStr neg ids fds ex h]
  have hd : (ids ++ fds).all isDigitC = true := by
    rw [List.all_append, h.2.1, h.2.2.1]
    rfl
  by_cases hEneg : exShift ex - (fds.length : Int) < 0
  · by_cases hdvd : 10 ^ (-(exShift ex - (fds.length : Int))).toNat ∣ digitsToNat (ids ++ fds)
    · exfalso
      apply hno
      obtain ⟨q, hq⟩ := hdvd
      refine ⟨condSign (if neg then ['-'] else []) q, ?_⟩
      unfold DenotesInt litExp litMant
      rw [Int.toNat_of_nonpos (le_of_lt hEneg), pow_zero, mul_one]
      cases neg with
      | false =>
        simp only [Bool.false_eq_true, if_false, condSign, reduceCtorEq]
        rw [hq]
        push_cast
        ring
      | true =>
        simp only [condSign, reduceIte]
        rw [hq]
        push_cast
        ring
    · exact toIDSBack_none _ _ _ _ hd hEneg hdvd
  · exfalso
    apply hno
    refine ⟨condSign (if neg then ['-'] else []) (digitsToNat (ids ++ fds)) *
      10 ^ (exShift ex - (fds.length : Int)).toNat, ?_⟩
    unfold DenotesInt litExp litMant
    rw [Int.toNat_of_nonpos (by omega : -(exShift ex - (fds.length : Int)) ≤ 0),
      pow_zero, mul_one]

/- ### isAllDigits / isNumericLike (src/unmarshal.go:618-688) -/

/-- `isAllDigits` (src/unmarshal.go:618-628): nonempty and only ASCII digits. -/
def isAllDigits (s : List Char) : Bool :=
  if s = [] then false else s.all isDigitC

/-- Exponent tail of `isNumericLike` (src/unmarshal.go:666-687): optional
`e`/`E` followed by an optional sign and at least one digit, ending the
string. -/
def numlikeExp (s : List Char) : Bool :=
  match s with
  | [] => true
  | c :: r =>
    if c = 'e' ∨ c = 'E' then
      match r with
      | [] => false
      | c2 :: r2 =>
        let r3 := if c2 = '+' ∨ c2 = '-' then r2 else c2 :: r2
        decide (r3.takeWhile isDigitC ≠ [] ∧ r3.dropWhile isDigitC = [])
    else false

/-- Digits / decimal-point body of `isNumericLike` (src/unmarshal.go:644-664). -/
def numlikeAfterSign (s : List Char) : Bool :=
  let digs := s.takeWhile isDigitC
  let rest := s.dropWhile isDigitC
  if rest.head? = some '.' then
    let frac := rest.tail.takeWhile isDigitC
    let rest2 := rest.tail.dropWhile isDigitC
    if digs = [] ∧ frac = [] then false
    else numlikeExp rest2
  else
    if digs = [] then false
    else numlikeExp rest

/-- `isNumericLike` (src/unmarshal.go:632-688): optional sign, digits with
optional single dot, optional exponent. -/
def isNumericLike (s : List Char) : Bool :=
  match s with
  | [] => false
  | c :: rest =>
    if c = '+' ∨ c = '-' then
      match rest with
      | [] => false
      | _ => numlikeAfterSign rest
    else numlikeAfterSign (c :: rest)

/- ### cleanNumber / parseInt / parseBool (src/unmarshal.go:385-460) -/

/-- `cleanNumber` (src/unmarshal.go:441-460): keep digits and minus signs,
then keep only a single leading minus. -/
def cleanNumber (s0 : List Char) : List Char :=
  let s := trimSpace s0
  if s = [] then []
  else
    let out := s.filter (fun c => isDigitC c ∨ c = '-')
    if 1 < out.count '-' then
      '-' :: ((if out.head? = some '-' then out.tail else out).filter
        (fun c => ¬(c = '-')))
    else out

/-- `parseInt` (src/unmarshal.go:395-409).  The final fallback — parsing as
a float64 and truncating — is inherently floating point, so it is a
parameter `floatToInt` here; every theorem about this function holds for
any value of that parameter. -/
def parseIntGo (floatToInt : List Char → Option Int) (s : List Char) : Option Int :=
  let cleaned := cleanNumber s
  if cleaned = [] ∨ cleaned = ['-'] then none
  else
    match parseInt64 cleaned with
    | some i => some i
    | none => floatToInt s

/-- `parseBool` (src/unmarshal.go:385-393). -/
def parseBool (s : List Char) : Bool :=
  let ls := toLowerS (trimSpace s)
  ls = cs "true" ∨ ls = cs "1" ∨ ls = cs "yes" ∨ ls = cs "y" ∨
    ls = cs "да" ∨ ls = cs "si" ∨ ls = cs "on"

/- ### Cell storage types (excelize CellType) and convertCell branches -/

/-- The excelize cell storage-type tag. -/
inductive CellType where
  | unset
  | bool
  | date
  | error
  | formula
  | inlineString
  | number
  | sharedString
  | str
deriving DecidableEq

/-- The `reflect.String` branch of `convertCell` (src/unmarshal.go:237-272). -/
def convertCellString (raw fm : List Char) : List Char :=
  let fmTrim := trimSpace fm
  if fmTrim ≠ [] ∧ fmTrim.head? = some '+' then fm
  else if fmTrim ≠ [] ∧ 1 < fmTrim.length ∧ fmTrim.head? = some '0' ∧
      isAllDigits fmTrim then fm
  else
    let r := trimSpace raw
    if r ≠ [] ∧ isNumericLike r then
      match toIntegerDecimalString r with
      | some dec => dec
      | none => r
    else if fmTrim ≠ [] ∧ isNumericLike fmTrim then
      match toIntegerDecimalString fmTrim with
      | some dec => dec
      | none => fm
    else fm

/-- The `reflect.Bool` branch of `convertCell` (src/unmarshal.go:273-282). -/
def convertCellBool (raw fm : List Char) (ctype : CellType) : Bool :=
  if ctype = CellType.bool then
    raw = cs "1" ∨ eqFold fm (cs "true")
  else parseBool fm

/-- The `reflect.Int64` branch of `convertCell` (src/unmarshal.go:283-309):
exact raw-string reconstruction first, only then the formatted-text
fallback `parseInt`. -/
def convertCellInt64 (floatToInt : List Char → Option Int) (raw fm : List Char) :
    Option Int :=
  match parseRawNumberToInt64 (trimSpace raw) with
  | some v => some v
  | none => parseIntGo floatToInt fm

/-- The `reflect.Uint64` branch of `convertCell` (src/unmarshal.go:310-338). -/
def convertCellUint64 (floatToInt : List Char → Option Int) (raw fm : List Char) :
    Option Nat :=
  match parseRawNumberToUint64 (trimSpace raw) with
  | some v => some v
  | none =>
    match parseIntGo floatToInt fm with
    | some i => if 0 ≤ i then some i.toNat else none
    | none => none

/- ### Model of Go time.Parse restricted to this package's layouts -/

/-- Calendar components recovered by a layout-directed parse, plus an
explicit zone offset in minutes when the input carried one.  Components
missing from a layout default to zero (or one, for month/day), as in Go. -/
structure TParts where
  y : Nat
  mo : Nat
  d : Nat
  hh : Nat
  mi : Nat
  ss : Nat
  off : Option Int
deriving DecidableEq

/-- Go's zero-value defaults for unparsed components. -/
def tpDefault : TParts := ⟨0, 1, 1, 0, 0, 0, none⟩

/-- Exactly two digits (Go `getnum` with `fixed`). -/
def parse2Fixed (s : List Char) : Option (Nat × List Char) :=
  match s with
  | a :: b :: rest =>
    if isDigitC a ∧ isDigitC b then some (digVal a * 10 + digVal b, rest) else none
  | _ => none

/-- One or two digits (Go `getnum` without `fixed`, used for the hour). -/
def parse2Lenient (s : List Char) : Option (Nat × List Char) :=
  match s with
  | [] => none
  | [a] => if isDigitC a then some (digVal a, []) else none
  | a :: b :: rest =>
    if isDigitC a then
      if isDigitC b then some (digVal a * 10 + digVal b, rest)
      else some (digVal a, b :: rest)
    else none

/-- Exactly four digits (Go `stdLongYear`). -/
def parse4 (s : List Char) : Option (Nat × List Char) :=
  match s with
  | a :: b :: c :: d :: rest =>
    if isDigitC a ∧ isDigitC b ∧ isDigitC c ∧ isDigitC d then
      some (digitsToNat [a, b, c, d], rest)
    else none
  | _ => none

/-- `±hh:mm` offset after the sign char has been seen. -/
def parseOffsetTail (negOff : Bool) (s : List Char) : Option (Option Int × List Char) :=
  match parse2Fixed s with
  | some hr =>
    match hr.2 with
    | [] => none
    | c2 :: r2 =>
      if c2 = ':' then
        match parse2Fixed r2 with
        | some mr =>
          let mins : Int := hr.1 * 60 + mr.1
          some (some (if negOff then -mins else mins), mr.2)
        | none => none
      else none
  | none => none

/-- Zone of layout `Z07:00`: `Z` for UTC, else `±hh:mm`. -/
def parseZone (s : List Char) : Option (Option Int × List Char) :=
  match s with
  | [] => none
  | c :: rest =>
    if c = 'Z' then some (some 0, rest)
    else if c = '+' then parseOffsetTail false rest
    else if c = '-' then parseOffsetTail true rest
    else none

/-- Match a literal prefix, returning the remainder of the second list. -/
def headMatchRest : List Char → List Char → Option (List Char)
  | [], s => some s
  | _ :: _, [] => none
  | p :: ps, c :: rest => if p = c then headMatchRest ps rest else none

/-- Layout-directed parse loop over the numeric layout tokens used by this
package (`2006`, `01`, `02`, `15`, `04`, `05`, `Z07:00`); any other layout
char is a literal that must match the input. -/
def goParseLoop : Nat → List Char → List Char → TParts → Option TParts
  | 0, _, _, _ => none
  | _ + 1, [], input, acc => if input = [] then some acc else none
  | fuel + 1, lc :: lrest, input, acc =>
    match headMatchRest (cs "2006") (lc :: lrest) with
    | some lr =>
      match parse4 input with
      | some vr => goParseLoop fuel lr vr.2 { acc with y := vr.1 }
      | none => none
    | none =>
    match headMatchRest (cs "01") (lc :: lrest) with
    | some lr =>
      match parse2Fixed input with
      | some vr => goParseLoop fuel lr vr.2 { acc with mo := vr.1 }
      | none => none
    | none =>
    match headMatchRest (cs "02") (lc :: lrest) with
    | some lr =>
      match parse2Fixed input with
      | some vr => goParseLoop fuel lr vr.2 { acc with d := vr.1 }
      | none => none
    | none =>
    match headMatchRest (cs "15") (lc :: lrest) with
    | some lr =>
      match parse2Lenient input with
      | some vr => goParseLoop fuel lr vr.2 { acc with hh := vr.1 }
      | none => none
    | none =>
    match headMatchRest (cs "04") (lc :: lrest) with
    | some lr =>
      match parse2Fixed input with
      | some vr => goParseLoop fuel lr vr.2 { acc with mi := vr.1 }
      | none => none
    | none =>
    match headMatchRest (cs "05") (lc :: lrest) with
    | some lr =>
      match parse2Fixed input with
      | some vr => goParseLoop fuel lr vr.2 { acc with ss := vr.1 }
      | none => none
    | none =>
    match headMatchRest (cs "Z07:00") (lc :: lrest) with
    | some lr =>
      match parseZone input with
      | some zr => goParseLoop fuel lr zr.2 { acc with off := zr.1 }
      | none => none
    | none =>
    match input with
    | [] => none
    | ic :: irest => if lc = ic then goParseLoop fuel lrest irest acc else none

/-- Gregorian leap-year rule (Go `isLeap`). -/
def isLeapYear (y : Nat) : Bool := (y % 4 = 0 ∧ y % 100 ≠ 0) ∨ y % 400 = 0

def daysInMonth (y mo : Nat) : Nat :=
  if mo = 2 then (if isLeapYear y then 29 else 28)
  else if mo = 4 ∨ mo = 6 ∨ mo = 9 ∨ mo = 11 then 30
  else 31

/-- Go time.Parse range validation of the recovered components. -/
def validParts (p : TParts) : Bool :=
  1 ≤ p.mo ∧ p.mo ≤ 12 ∧ 1 ≤ p.d ∧ p.d ≤ daysInMonth p.y p.mo ∧
    p.hh < 24 ∧ p.mi < 60 ∧ p.ss < 60

/-- Model of Go `time.Parse`: parse the input against the layout, then
validate ranges. -/
def goParseLayout (layout input : List Char) : Option TParts :=
  match goParseLoop (layout.length + 1) layout input tpDefault with
  | some p => if validParts p then some p else none
  | none => none

/-- The value of a parsed time: calendar components plus the location they
are interpreted in (`none` = UTC / explicit offset carried in `parts`). -/
structure TimeVal where
  parts : TParts
  loc : Option (List Char)
deriving DecidableEq

/-- Model of `time.ParseInLocation`: like Parse, but when the input carries
no explicit offset the components are interpreted in `l`. -/
def goParseInLocation (fmt s : List Char) (l : List Char) : Option TimeVal :=
  match goParseLayout fmt s with
  | some p => some ⟨p, if p.off = none then some l else none⟩
  | none => none

/-- Model of `time.Parse` (UTC ambient zone). -/
def goParse (fmt s : List Char) : Option TimeVal :=
  match goParseLayout fmt s with
  | some p => some ⟨p, none⟩
  | none => none

/-- One format attempt of `parseTime` (src/unmarshal.go:467-476, 487-496):
`ParseInLocation` in the declared location when one is given, else `Parse`. -/
def tryFormat (fmtStr s : List Char) (loc : Option (List Char)) : Option TimeVal :=
  match loc with
  | some l =>
    match goParseInLocation fmtStr s l with
    | some t => some t
    | none => goParse fmtStr s
  | none => goParse fmtStr s

/-- The fixed fallback list of `parseTime` (src/unmarshal.go:478-486), with
`time.RFC3339` spelled out. -/
def commonFormats : List (List Char) :=
  [cs "2006-01-02 15:04:05",
   cs "2006-01-02T15:04:05Z07:00",
   cs "2006-01-02",
   cs "02-01-2006",
   cs "02.01.2006",
   cs "02/01/2006",
   cs "01/02/2006"]

/-- First-success iteration over a format list. -/
def tryFormats : List (List Char) → List Char → Option (List Char) → Option TimeVal
  | [], _, _ => none
  | f :: rest, s, loc =>
    match tryFormat f s loc with
    | some t => some t
    | none => tryFormats rest s loc

/-- `parseTime` (src/unmarshal.go:462-498): empty text fails; the custom
format is tried first, then the common-format list; first success wins. -/
def parseTimeGo (s fmtStr : List Char) (loc : Option (List Char)) : Option TimeVal :=
  if s = [] then none
  else
    match (if fmtStr ≠ [] then tryFormat fmtStr s loc else none) with
    | some t => some t
    | none => tryFormats commonFormats s loc

/- ### Cell addressing (src/xlsx.go:159-169, src/unnamed/part_001:219-228) -/

/-- `getColumnLetter`: single letter for 0-25, else a two-char string built
from `columnIdx/26` and `columnIdx%26` rune arithmetic. -/
def getColumnLetter (c : Nat) : List Char :=
  if c < 26 then [Char.ofNat ('A'.toNat + c)]
  else [Char.ofNat ('A'.toNat - 1 + c / 26), Char.ofNat ('A'.toNat + c % 26)]

/-- Decimal digit char. -/
def digitChar (n : Nat) : Char := Char.ofNat ('0'.toNat + n)

def natToDigitsAux : Nat → Nat → List Char
  | 0, _ => []
  | f + 1, n =>
    if n < 10 then [digitChar n]
    else natToDigitsAux f (n / 10) ++ [digitChar (n % 10)]

/-- Decimal rendering of a row number (`fmt.Sprintf("%d", rowIdx)` for
nonnegative rows). -/
def natToDigits (n : Nat) : List Char := natToDigitsAux (n + 1) n

/-- `GetCellName` / `getCellName`: column letters concatenated with the
decimal row number. -/
def GetCellName (c r : Nat) : List Char := getColumnLetter c ++ natToDigits r

/- ### Sheet model and the typed unmarshal pipeline (src/unmarshal.go:46-231)

A workbook sheet is modelled as total functions from (column, row) to the
raw text, formatted text and storage type of the cell — the three excelize
reads the code performs.  The code addresses cells through `GetCellName`;
this indexing is justified by the injectivity of `GetCellName` on the
scanned ranges, proven below. -/

/-- Destination field kinds handled by `convertCell`.  `otherK` collects
the kinds the switch rejects; the float32/float64 branch is inherently
IEEE-754 and is outside this embedding (no claim concerns it). -/
inductive FieldKind where
  | stringK
  | boolK
  | intK
  | uintK
  | timeK
  | otherK
deriving DecidableEq

/-- Parameters for the two float-dependent external computations:
`parseFloat`-then-truncate (the `parseInt` fallback) and the Excel
date-serial conversion `ParseFloat` + `ExcelDateToTime`. -/
structure ConvParams where
  floatToInt : List Char → Option Int
  dateSerial : Bool → List Char → Option TParts

/-- A converted cell value. -/
inductive CellVal where
  | vs (s : List Char)
  | vb (b : Bool)
  | vi (i : Int)
  | vu (u : Nat)
  | vt (t : TimeVal)
deriving DecidableEq

structure Sheet where
  raw : Nat → Nat → List Char
  formatted : Nat → Nat → List Char
  ctype : Nat → Nat → CellType

/-- Scan limits (src/unmarshal.go:14-18). -/
def headerColumnScanLimit : Nat := 1024

def emptyHeaderTailGap : Nat := 16

def emptyDataRowsGap : Nat := 50

/-- Header scan loop (src/unmarshal.go:69-92): state is the column, the
consecutive-empty counter, whether any header was seen, and the pairs
recorded so far (in scan order; Go's map insert `headerMap[h] = c` is the
appended pair, with later pairs overriding earlier ones on lookup).
Returns the recorded pairs and the column at which scanning stopped. -/
def headerScanAux (hdr : Nat → List Char) :
    Nat → Nat → Nat → Bool → List (List Char × Nat) →
      List (List Char × Nat) × Nat
  | 0, c, _, _, acc => (acc, c)
  | fuel + 1, c, et, seen, acc =>
    let h := trimSpace (hdr c)
    if h = [] then
      if seen then
        if emptyHeaderTailGap ≤ et + 1 then (acc, c)
        else headerScanAux hdr fuel (c + 1) (et + 1) seen acc
      else headerScanAux hdr fuel (c + 1) et seen acc
    else headerScanAux hdr fuel (c + 1) 0 true (acc ++ [(h, c)])

/-- The header scan over row 1 of a sheet. -/
def headerScan (sh : Sheet) : List (List Char × Nat) × Nat :=
  headerScanAux (fun c => sh.formatted c 1) headerColumnScanLimit 0 0 false []

/-- Go map semantics for `headerMap`: the last insertion of a key wins. -/
def lookupLast (ps : List (List Char × Nat)) (k : List Char) : Option Nat :=
  match ps with
  | [] => none
  | kv :: rest =>
    match lookupLast rest k with
    | some v => some v
    | none => if kv.1 = k then some kv.2 else none

/-- A destination struct field as the binder sees it (tag directives
already parsed; an `xlsx:"-"` tag sets `skip`). -/
structure FieldDef where
  fname : List Char
  nameTag : List Char
  skip : Bool
  kind : FieldKind
  timeFormat : List Char
  loc : Option (List Char)

/-- `getColumnName` (src/xlsx.go:109-115): the `name:` directive if
nonempty, else the field's own name. -/
def getColumnNameM (fd : FieldDef) : List Char :=
  if fd.nameTag ≠ [] then fd.nameTag else fd.fname

/-- A resolved field binding (src/unmarshal.go:98-142). -/
structure FieldInfo where
  colIdx : Nat
  kind : FieldKind
  timeFormat : List Char
  loc : Option (List Char)

/-- Field-binding construction (src/unmarshal.go:108-142): skipped fields
and fields whose display name is absent from the header map are excluded. -/
def buildFields (hdr : List (List Char × Nat)) (sd : List FieldDef) : List FieldInfo :=
  sd.filterMap (fun fd =>
    if fd.skip then none
    else
      match lookupLast hdr (getColumnNameM fd) with
      | some c => some ⟨c, fd.kind, fd.timeFormat, fd.loc⟩
      | none => none)

/-- `convertCell` (src/unmarshal.go:235-381) for the modelled kinds.
The `timeK` branch follows the `reflect.Struct` case: a numeric cell goes
through the date-serial path (with the declared location reattached), and
otherwise the formatted text is parsed by `parseTime`. -/
def convertCell (P : ConvParams) (raw fm : List Char) (ctype : CellType)
    (k : FieldKind) (tf : List Char) (loc : Option (List Char)) (use1904 : Bool) :
    Option CellVal :=
  match k with
  | FieldKind.stringK => some (CellVal.vs (convertCellString raw fm))
  | FieldKind.boolK => some (CellVal.vb (convertCellBool raw fm ctype))
  | FieldKind.intK =>
    match convertCellInt64 P.floatToInt raw fm with
    | some i => some (CellVal.vi i)
    | none => none
  | FieldKind.uintK =>
    match convertCellUint64 P.floatToInt raw fm with
    | some u => some (CellVal.vu u)
    | none => none
  | FieldKind.timeK =>
    match (if ctype = CellType.number then
        (match P.dateSerial use1904 (trimSpace raw) with
         | some p => some (TimeVal.mk p loc)
         | none => none)
      else none) with
    | some t => some (CellVal.vt t)
    | none =>
      match parseTimeGo fm tf loc with
      | some t => some (CellVal.vt t)
      | none => none
  | FieldKind.otherK => none

/-- Per-field population (src/unmarshal.go:196-223): an empty cell (both
representations trimmed empty) leaves the field unset/zero (`none`), and a
failed coercion does the same; both for value and pointer fields. -/
def populateField (P : ConvParams) (raw fm : List Char) (ctype : CellType)
    (k : FieldKind) (tf : List Char) (loc : Option (List Char)) (use1904 : Bool) :
    Option CellVal :=
  if trimSpace fm = [] ∧ trimSpace raw = [] then none
  else convertCell P raw fm ctype k tf loc use1904

/-- Row emptiness during the data scan (src/unmarshal.go:154-162): the
code consults only the formatted value of each bound column. -/
def rowEmptyCode (sh : Sheet) (fields : List FieldInfo) (r : Nat) : Bool :=
  fields.all (fun fi => trimSpace (sh.formatted fi.colIdx r) = [])

/-- The record built from one data row (src/unmarshal.go:180-224). -/
def buildRec (P : ConvParams) (sh : Sheet) (fields : List FieldInfo)
    (use1904 : Bool) (r : Nat) : List (Option CellVal) :=
  fields.map (fun fi =>
    populateField P (sh.raw fi.colIdx r) (sh.formatted fi.colIdx r)
      (sh.ctype fi.colIdx r) fi.kind fi.timeFormat fi.loc use1904)

/-- Data scan loop (src/unmarshal.go:150-228): rows from 2, stopping at the
hard row ceiling or after `emptyDataRowsGap` consecutive empty rows; each
non-empty row appends one record (tagged with its source row) to the
destination slice. -/
def dataScanAux (P : ConvParams) (sh : Sheet) (fields : List FieldInfo)
    (use1904 : Bool) :
    Nat → Nat → Nat → List (Nat × List (Option CellVal)) →
      List (Nat × List (Option CellVal))
  | 0, _, _, acc => acc
  | fuel + 1, r, ce, acc =>
    if rowEmptyCode sh fields r then
      if emptyDataRowsGap ≤ ce + 1 then acc
      else dataScanAux P sh fields use1904 fuel (r + 1) (ce + 1) acc
    else
      dataScanAux P sh fields use1904 fuel (r + 1) 0
        (acc ++ [(r, buildRec P sh fields use1904 r)])

/-- The full data scan: rows 2 through 99999. -/
def dataScan (P : ConvParams) (sh : Sheet) (fields : List FieldInfo)
    (use1904 : Bool) (init : List (Nat × List (Option CellVal))) :
    List (Nat × List (Option CellVal)) :=
  dataScanAux P sh fields use1904 99998 2 0 init

/- ### Unmarshal entry (src/unmarshal.go:28-231) -/

/-- The reflect-level shape of the destination argument. -/
inductive GoType where
  | structT
  | otherT
  | sliceT (e : GoType)
  | ptrT (e : GoType)
deriving DecidableEq

/-- A workbook: its sheet-name list, the cells of its first sheet, and the
1904-date-system flag. -/
structure Workbook where
  sheets : List (List Char)
  sheet : Sheet
  date1904 : Bool

/-- `unmarshalTyped` (src/unmarshal.go:46-231).  The result pairs the
returned error (as `Option` of its message) with the destination slice
after the call: validation errors are returned before any record is
appended, a header-less sheet succeeds with no records, and otherwise the
scanned records are appended to the existing contents. -/
def unmarshalTypedModel (P : ConvParams) (sh : Sheet) (destTy : GoType)
    (destNil : Bool) (sd : List FieldDef) (use1904 : Bool)
    (init : List (Nat × List (Option CellVal))) :
    Option (List Char) × List (Nat × List (Option CellVal)) :=
  match destTy with
  | GoType.ptrT inner =>
    if destNil then
      (some (cs "destination must be a non-nil pointer to a slice"), init)
    else
      match inner with
      | GoType.sliceT elem =>
        let structType := match elem with | GoType.ptrT e => e | _ => elem
        if structType ≠ GoType.structT then
          (some (cs "slice element must be a struct or pointer to struct"), init)
        else
          let hdrPairs := (headerScan sh).1
          if hdrPairs = [] then (none, init)
          else
            let fields := buildFields hdrPairs sd
            (none, dataScan P sh fields use1904 init)
      | _ => (some (cs "destination must be a pointer to a slice"), init)
  | _ => (some (cs "destination must be a non-nil pointer to a slice"), init)

/-- `Unmarshal` (src/unmarshal.go:28-40): nil-handle and sheetless-workbook
checks, then the typed read of the first sheet. -/
def UnmarshalModel (P : ConvParams) (file : Option Workbook) (destTy : GoType)
    (destNil : Bool) (sd : List FieldDef)
    (init : List (Nat × List (Option CellVal))) :
    Option (List Char) × List (Nat × List (Option CellVal)) :=
  match file with
  | none => (some (cs "file is nil"), init)
  | some wb =>
    if wb.sheets = [] then (some (cs "no sheet found"), init)
    else unmarshalTypedModel P wb.sheet destTy destNil sd wb.date1904 init

/- ### Claim C1 -/

/-- C1: For every integer `v` with `|v| > 2^53` stored in a numeric cell
whose raw representation is a decimal or scientific-notation string
denoting exactly `v`, coercion into a 64-bit signed (resp. unsigned)
integer field yields exactly `v`: the conversion reconstructs the integer
from the raw digit string by shifting the decimal point
(`toIntegerDecimalString`), never routes through a 64-bit float (the
conversion result is independent of the float fallback `fb`), returns
failure — not an approximation — when the raw string does not denote an
exact integer, and falls back to parsing the formatted text (`parseInt`)
only when the raw-exact path fails. -/
theorem C1_exact_integer_coercion :
    (∀ (neg : Bool) (ids fds : List Char) (ex : Option ExpPart) (v : Int)
       (fm : List Char) (fb : List Char → Option Int),
       NumLitWF ids fds ex → DenotesInt neg ids fds ex v →
       2 ^ 53 < v.natAbs → -(2 : Int) ^ 63 ≤ v → v ≤ 2 ^ 63 - 1 →
       convertCellInt64 fb (mkNumStr neg ids fds ex) fm = some v) ∧
    (∀ (ids fds : List Char) (ex : Option ExpPart) (u : Nat)
       (fm : List Char) (fb : List Char → Option Int),
       NumLitWF ids fds ex → DenotesInt false ids fds ex (u : Int) →
       2 ^ 53 < u → u ≤ 2 ^ 64 - 1 →
       convertCellUint64 fb (mkNumStr false ids fds ex) fm = some u) ∧
    (∀ (neg : Bool) (ids fds : List Char) (ex : Option ExpPart),
       NumLitWF ids fds ex → (¬ ∃ v : Int, DenotesInt neg ids fds ex v) →
       toIntegerDecimalString (mkNumStr neg ids fds ex) = none) ∧
    (∀ (fb : List Char → Option Int) (raw fm : List Char),
       parseRawNumberToInt64 (trimSpace raw) = none →
       convertCellInt64 fb raw fm = parseIntGo fb fm) := by
  refine ⟨?_, ?_, ?_, ?_⟩
  · intro neg ids fds ex v fm fb hWF hden _ hlo hhi
    have htrim := trimSpace_eq_self (mkNumStr_noSpace neg ids fds ex hWF)
    unfold convertCellInt64
    rw [htrim, mkNumStr_parseRawInt64 neg ids fds ex v hWF hden hlo hhi]
  · intro ids fds ex u fm fb hWF hden _ hhi
    have htrim := trimSpace_eq_self (mkNumStr_noSpace false ids fds ex hWF)
    unfold convertCellUint64
    rw [htrim, mkNumStr_parseRawUint64 ids fds ex u hWF hden hhi]
  · intro neg ids fds ex hWF hno
    exact mkNumStr_nonint neg ids fds ex hWF hno
  · intro fb raw fm hnone
    unfold convertCellInt64
    rw [hnone]

/-- Witness for C1 at concrete inputs: the raw scientific-notation string
`9.007199254740993E+15` (an integer just above `2^53`, which a float64
round-trip could not represent) converts to exactly `9007199254740993` in
both the signed and unsigned pipelines, regardless of the float fallback;
and the non-integer raw string `1.5` makes `toIntegerDecimalString` fail. -/
theorem C1_exact_integer_coercion_witness :
    convertCellInt64 (fun _ => none)
        (cs "9.007199254740993E+15") (cs "9.00720E+15") = some 9007199254740993 ∧
      convertCellUint64 (fun _ => some 7)
        (cs "9.007199254740993E+15") (cs "9.00720E+15") = some 9007199254740993 ∧
      toIntegerDecimalString (cs "1.5") = none := by
  have hWF : NumLitWF (cs "9") (cs "007199254740993")
      (some ⟨'E', cs "+", cs "15"⟩) := by
    refine ⟨by decide, by decide, by decide, ?_⟩
    unfold exWFOpt expWF
    refine ⟨by decide, by decide, by decide, by decide, by decide⟩
  have hmk : mkNumStr false (cs "9") (cs "007199254740993")
      (some ⟨'E', cs "+", cs "15"⟩) = cs "9.007199254740993E+15" := by decide
  have hWF2 : NumLitWF (cs "1") (cs "5") none := by
    refine ⟨by decide, by decide, by decide, trivial⟩
  have hmk2 : mkNumStr false (cs "1") (cs "5") none = cs "1.5" := by decide
  refine ⟨?_, ?_, ?_⟩
  · have := C1_exact_integer_coercion.1 false (cs "9") (cs "007199254740993")
      (some ⟨'E', cs "+", cs "15"⟩) 9007199254740993 (cs "9.00720E+15")
      (fun _ => none) hWF (by unfold DenotesInt; decide) (by decide) (by decide)
      (by decide)
    rw [hmk] at this
    exact this
  · have := C1_exact_integer_coercion.2.1 (cs "9") (cs "007199254740993")
      (some ⟨'E', cs "+", cs "15"⟩) 9007199254740993 (cs "9.00720E+15")
      (fun _ => some 7) hWF (by unfold DenotesInt; decide) (by decide) (by decide)
    rw [hmk] at this
    exact this
  · have := C1_exact_integer_coercion.2.2.1 false (cs "1") (cs "5") none hWF2
      (by
        intro hcon
        obtain ⟨v, hv⟩ := hcon
        unfold DenotesInt at hv
        simp only [Bool.false_eq_true, if_false, reduceCtorEq] at hv
        rw [show condSign [] (litMant (cs "1") (cs "5")) = (15 : Int) by decide,
          show (litExp (cs "5") none).toNat = 0 by decide,
          show (-(litExp (cs "5") none)).toNat = 1 by decide] at hv
        norm_num at hv
        omega)
    rw [hmk2] at this
    exact this

/- ### Claim C2 -/

/-- C2: For every cell coerced into a string field: a formatted text whose
trimmed form begins with `+`, or begins with `0` followed only by further
digits, is returned verbatim; otherwise a nonempty numeric-looking trimmed
raw text is normalized to an exact decimal-integer string when possible and
to the (trimmed) raw text itself when not; otherwise a numeric-looking
trimmed formatted text is normalized the same way (falling back to the
formatted text when exact conversion fails); and only as a last resort is
the formatted text returned unchanged.  In particular the text cell
`+380963334455` yields itself, `0887776655` yields itself, and a numeric
cell holding 380963334455 (formatted in scientific notation) yields
`380963334455`. -/
theorem C2_string_coercion :
    (∀ raw fm : List Char, (trimSpace fm).head? = some '+' →
       convertCellString raw fm = fm) ∧
    (∀ (raw fm : List Char) (ds : List Char), trimSpace fm = '0' :: ds →
       ds ≠ [] → ds.all isDigitC = true → convertCellString raw fm = fm) ∧
    (∀ raw fm : List Char,
       ¬((trimSpace fm).head? = some '+') →
       ¬(∃ ds, trimSpace fm = '0' :: ds ∧ ds ≠ [] ∧ ds.all isDigitC = true) →
       trimSpace raw ≠ [] → isNumericLike (trimSpace raw) = true →
       convertCellString raw fm =
         (match toIntegerDecimalString (trimSpace raw) with
          | some dec => dec
          | none => trimSpace raw)) ∧
    (∀ raw fm : List Char,
       ¬((trimSpace fm).head? = some '+') →
       ¬(∃ ds, trimSpace fm = '0' :: ds ∧ ds ≠ [] ∧ ds.all isDigitC = true) →
       ¬(trimSpace raw ≠ [] ∧ isNumericLike (trimSpace raw) = true) →
       trimSpace fm ≠ [] → isNumericLike (trimSpace fm) = true →
       convertCellString raw fm =
         (match toIntegerDecimalString (trimSpace fm) with
          | some dec => dec
          | none => fm)) ∧
    (∀ raw fm : List Char,
       ¬((trimSpace fm).head? = some '+') →
       ¬(∃ ds, trimSpace fm = '0' :: ds ∧ ds ≠ [] ∧ ds.all isDigitC = true) →
       ¬(trimSpace raw ≠ [] ∧ isNumericLike (trimSpace raw) = true) →
       ¬(trimSpace fm ≠ [] ∧ isNumericLike (trimSpace fm) = true) →
       convertCellString raw fm = fm) ∧
    convertCellString (cs "+380963334455") (cs "+380963334455") = cs "+380963334455" ∧
    convertCellString (cs "0887776655") (cs "0887776655") = cs "0887776655" ∧
    convertCellString (cs "380963334455") (cs "3.8096E+11") = cs "380963334455" := by
  have hcondb : ∀ fm : List Char,
      (∃ ds, trimSpace fm = '0' :: ds ∧ ds ≠ [] ∧ ds.all isDigitC = true) ↔
      (trimSpace fm ≠ [] ∧ 1 < (trimSpace fm).length ∧
        (trimSpace fm).head? = some '0' ∧ isAllDigits (trimSpace fm) = true) := by
    intro fm
    constructor
    · rintro ⟨ds, hds, hne, hall⟩
      rw [hds]
      refine ⟨by simp, ?_, rfl, ?_⟩
      · cases ds with
        | nil => exact absurd rfl hne
        | cons a b => simp
      · unfold isAllDigits
        rw [if_neg (by simp)]
        simp only [List.all_cons, Bool.and_eq_true]
        exact ⟨by decide, hall⟩
    · rintro ⟨hne, hlen, hhead, hall⟩
      cases hft : trimSpace fm with
      | nil => exact absurd hft hne
      | cons a b =>
        rw [hft] at hhead hlen hall
        refine ⟨b, ?_, ?_, ?_⟩
        · simp only [List.head?_cons, Option.some.injEq] at hhead
          rw [hhead]
        · intro hb
          rw [hb] at hlen
          simp at hlen
        · unfold isAllDigits at hall
          rw [if_neg (by simp)] at hall
          simp only [List.all_cons, Bool.and_eq_true] at hall
          exact hall.2
  refine ⟨?_, ?_, ?_, ?_, ?_, by decide, by decide, by decide⟩
  · intro raw fm hp
    have hne : trimSpace fm ≠ [] := by
      intro hcon; rw [hcon] at hp; simp at hp
    unfold convertCellString
    rw [if_pos ⟨hne, hp⟩]
  · intro raw fm ds hds hne hall
    have hb := (hcondb fm).mp ⟨ds, hds, hne, hall⟩
    unfold convertCellString
    rw [if_neg (by
      rintro ⟨-, hp⟩
      rw [hds] at hp
      simp at hp)]
    rw [if_pos hb]
  · intro raw fm hna hnb hrne hrnum
    unfold convertCellString
    rw [if_neg (fun hc => hna hc.2), if_neg (fun hc => hnb ((hcondb fm).mpr hc)),
      if_pos ⟨hrne, hrnum⟩]
  · intro raw fm hna hnb hnr hfne hfnum
    unfold convertCellString
    rw [if_neg (fun hc => hna hc.2), if_neg (fun hc => hnb ((hcondb fm).mpr hc)),
      if_neg hnr, if_pos ⟨hfne, hfnum⟩]
  · intro raw fm hna hnb hnr hnf
    unfold convertCellString
    rw [if_neg (fun hc => hna hc.2), if_neg (fun hc => hnb ((hcondb fm).mpr hc)),
      if_neg hnr, if_neg hnf]

/-- Witness for C2: clause applications at concrete inputs — a plus-headed
formatted text is preserved, and a numeric-looking raw `1.5` (not an exact
integer) falls back to the trimmed raw text. -/
theorem C2_string_coercion_witness :
    convertCellString (cs "x") (cs " +7 ") = cs " +7 " ∧
      convertCellString (cs " 1.5 ") (cs "1.50") = cs "1.5" := by
  constructor
  · exact C2_string_coercion.1 (cs "x") (cs " +7 ") (by decide)
  · have := C2_string_coercion.2.2.1 (cs " 1.5 ") (cs "1.50")
      (by decide)
      (by
        rintro ⟨ds, hds, -, -⟩
        have ht : trimSpace (cs "1.50") = cs "1.50" := by decide
        rw [ht] at hds
        have hh : (cs "1.50").head? = some '0' := by rw [hds]; rfl
        exact absurd hh (by decide))
      (by decide) (by decide)
    rw [this]
    decide

/- ### Claim C4 -/

/-- C4: Boolean coercion is total — the bool branch of `convertCell`
always produces a value.  When the storage type is boolean, the raw
canonical truth token `1` (or a formatted text case-folding to `true`)
decides the result; otherwise the trimmed, case-folded formatted text is
matched against the token set {true, 1, yes, y, да, si, on} (which
contains the non-English affirmative `да`), with membership coercing to
true and any other token to false.  In particular `yes`, `1`, `true`,
`on` coerce to true. -/
theorem C4_bool_coercion :
    (∀ (P : ConvParams) (raw fm : List Char) (ct : CellType) (tf : List Char)
       (loc : Option (List Char)) (u : Bool),
       convertCell P raw fm ct FieldKind.boolK tf loc u =
         some (CellVal.vb (convertCellBool raw fm ct))) ∧
    (∀ raw fm : List Char,
       convertCellBool raw fm CellType.bool = true ↔
         (raw = cs "1" ∨ eqFold fm (cs "true") = true)) ∧
    (∀ (raw fm : List Char) (ct : CellType), ct ≠ CellType.bool →
       (convertCellBool raw fm ct = true ↔
         toLowerS (trimSpace fm) ∈
           [cs "true", cs "1", cs "yes", cs "y", cs "да", cs "si", cs "on"])) ∧
    parseBool (cs "yes") = true ∧ parseBool (cs "1") = true ∧
    parseBool (cs "true") = true ∧ parseBool (cs "on") = true ∧
    parseBool (cs "y") = true ∧ parseBool (cs "да") = true ∧
    parseBool (cs "no") = false ∧ parseBool (cs "2") = false := by
  refine ⟨?_, ?_, ?_, by decide, by decide, by decide, by decide, by decide,
    by decide, by decide, by decide⟩
  · intro P raw fm ct tf loc u
    rfl
  · intro raw fm
    unfold convertCellBool
    rw [if_pos rfl]
    simp
  · intro raw fm ct hct
    unfold convertCellBool
    rw [if_neg hct]
    unfold parseBool
    simp

/-- Witness for C4 at a concrete non-boolean cell: formatted `On` coerces
to true, `nope` to false. -/
theorem C4_bool_coercion_witness :
    convertCellBool (cs "x") (cs "On") CellType.str = true ∧
      convertCellBool (cs "x") (cs "nope") CellType.str = false := by
  constructor
  · rw [(C4_bool_coercion.2.2.1 (cs "x") (cs "On") CellType.str (by decide))]
    decide
  · have h := C4_bool_coercion.2.2.1 (cs "x") (cs "nope") CellType.str (by decide)
    rw [show convertCellBool (cs "x") (cs "nope") CellType.str = false ↔
      ¬(convertCellBool (cs "x") (cs "nope") CellType.str = true) by
        simp [Bool.not_eq_true]]
    rw [h]
    decide

/- ### Claim C5 -/

/-- An uppercase letter A–Z. -/
def isUpperAlpha (c : Char) : Bool := 'A' ≤ c ∧ c ≤ 'Z'

theorem digitChar_spec {m : Nat} (h : m < 10) :
    isDigitC (digitChar m) = true ∧ digVal (digitChar m) = m := by
  interval_cases m <;> exact ⟨by decide, by decide⟩

theorem natToDigitsAux_spec : ∀ fuel n, n < fuel →
    (natToDigitsAux fuel n).all isDigitC = true ∧
      digitsToNat (natToDigitsAux fuel n) = n ∧ natToDigitsAux fuel n ≠ [] := by
  intro fuel
  induction fuel with
  | zero => intro n h; omega
  | succ f ih =>
    intro n h
    unfold natToDigitsAux
    by_cases h10 : n < 10
    · rw [if_pos h10]
      obtain ⟨d1, d2⟩ := digitChar_spec h10
      refine ⟨by simp [d1], ?_, by simp⟩
      rw [digitsToNat_cons]
      simp only [List.length_nil, pow_zero, Nat.mul_one]
      rw [d2]
      simp [digitsToNat]
    · rw [if_neg h10]
      obtain ⟨a1, a2, a3⟩ := ih (n / 10) (by omega)
      obtain ⟨m1, m2⟩ := digitChar_spec (Nat.mod_lt n (by norm_num) : n % 10 < 10)
      refine ⟨?_, ?_, by simp⟩
      · rw [List.all_append]
        simp [a1, m1]
      · rw [digitsToNat_append]
        simp only [List.length_cons, List.length_nil, pow_one]
        rw [a2]
        have hm : digitsToNat [digitChar (n % 10)] = n % 10 := by
          rw [digitsToNat_cons]
          simp only [List.length_nil, pow_zero, Nat.mul_one]
          rw [m2]
          simp [digitsToNat]
        rw [hm]
        omega

theorem natToDigits_spec (n : Nat) :
    (natToDigits n).all isDigitC = true ∧
      digitsToNat (natToDigits n) = n ∧ natToDigits n ≠ [] :=
  natToDigitsAux_spec (n + 1) n (by omega)

/-- Inverse of `getColumnLetter` on the scanned column range. -/
def decodeCol (l : List Char) : Nat :=
  match l with
  | [a] => a.toNat - 65
  | [a, b] => (a.toNat - 64) * 26 + (b.toNat - 65)
  | _ => 0

set_option maxRecDepth 4096 in
theorem decodeCol_getColumnLetter : ∀ c < 1024, decodeCol (getColumnLetter c) = c := by
  decide

set_option maxRecDepth 4096 in
theorem getColumnLetter_not_digit :
    ∀ c < 1024, (getColumnLetter c).all (fun ch => !(isDigitC ch)) = true := by
  decide

theorem takeWhile_append_of_all {p : Char → Bool} {xs : List Char} (ys : List Char)
    (h : ∀ c ∈ xs, p c = true) :
    (xs ++ ys).takeWhile p = xs ++ ys.takeWhile p := by
  induction xs with
  | nil => simp
  | cons c rest ih =>
    rw [List.cons_append, List.takeWhile_cons_of_pos (h c (by simp)), List.cons_append,
      ih (fun d hd => h d (by simp [hd]))]

theorem dropWhile_append_of_all {p : Char → Bool} {xs : List Char} (ys : List Char)
    (h : ∀ c ∈ xs, p c = true) :
    (xs ++ ys).dropWhile p = ys.dropWhile p := by
  induction xs with
  | nil => simp
  | cons c rest ih =>
    rw [List.cons_append, List.dropWhile_cons_of_pos (h c (by simp)),
      ih (fun d hd => h d (by simp [hd]))]

/-- C5 counterexample: at column index 702 (within the claimed supported
range 0–1023) the column string is `[A`, whose first char `[` is not a
letter A–Z, so `columnLetter` does not produce a well-formed letter-only
string for every index up to 1023. -/
theorem C5_cell_addressing_counterexample :
    getColumnLetter 702 = cs "[A" ∧
      (getColumnLetter 702).all isUpperAlpha = false ∧ 702 ≤ 1023 := by
  decide

/-- C5 (amended): `columnLetter` is the base-26 alphabetic numbering with
A=0, Z=25, AA=26, and it produces a nonempty letter-only (A–Z) column
string for every column index up to 701 (`ZZ`); beyond that, up to the
header-scan limit 1023 and the row limit 99999, addresses remain
internally consistent: distinct (column, row) pairs always receive
distinct addresses, with no overflow. -/
theorem C5_cell_addressing :
    getColumnLetter 0 = cs "A" ∧ getColumnLetter 25 = cs "Z" ∧
    getColumnLetter 26 = cs "AA" ∧
    (∀ c, c ≤ 701 → getColumnLetter c ≠ [] ∧
      (getColumnLetter c).all isUpperAlpha = true) ∧
    (∀ c1 r1 c2 r2, c1 < 1024 → c2 < 1024 →
      1 ≤ r1 → r1 ≤ 99999 → 1 ≤ r2 → r2 ≤ 99999 →
      GetCellName c1 r1 = GetCellName c2 r2 → c1 = c2 ∧ r1 = r2) := by
  refine ⟨by decide, by decide, by decide, ?_, ?_⟩
  · intro c hc
    revert hc
    revert c
    have hall : ∀ c < 702, getColumnLetter c ≠ [] ∧
        (getColumnLetter c).all isUpperAlpha = true := by
      set_option maxRecDepth 4096 in decide
    intro c hc
    exact hall c (by omega)
  · intro c1 r1 c2 r2 hc1 hc2 hr1a hr1b hr2a hr2b heq
    unfold GetCellName at heq
    have hL1 : ∀ ch ∈ getColumnLetter c1, (fun ch => !(isDigitC ch)) ch = true := by
      have := getColumnLetter_not_digit c1 hc1
      rw [List.all_eq_true] at this
      exact this
    have hL2 : ∀ ch ∈ getColumnLetter c2, (fun ch => !(isDigitC ch)) ch = true := by
      have := getColumnLetter_not_digit c2 hc2
      rw [List.all_eq_true] at this
      exact this
    obtain ⟨hd1, hv1, hne1⟩ := natToDigits_spec r1
    obtain ⟨hd2, hv2, hne2⟩ := natToDigits_spec r2
    have htw1 : (natToDigits r1).takeWhile (fun ch => !(isDigitC ch)) = [] := by
      cases hc : natToDigits r1 with
      | nil => exact absurd hc hne1
      | cons d rest =>
        rw [hc] at hd1
        simp only [List.all_cons, Bool.and_eq_true] at hd1
        rw [List.takeWhile_cons_of_neg]
        simp [hd1.1]
    have htw2 : (natToDigits r2).takeWhile (fun ch => !(isDigitC ch)) = [] := by
      cases hc : natToDigits r2 with
      | nil => exact absurd hc hne2
      | cons d rest =>
        rw [hc] at hd2
        simp only [List.all_cons, Bool.and_eq_true] at hd2
        rw [List.takeWhile_cons_of_neg]
        simp [hd2.1]
    have hdw1 : (natToDigits r1).dropWhile (fun ch => !(isDigitC ch)) = natToDigits r1 := by
      apply dropWhile_eq_self_of_all
      intro ch hch
      rw [List.all_eq_true] at hd1
      simp [hd1 ch hch]
    have hdw2 : (natToDigits r2).dropWhile (fun ch => !(isDigitC ch)) = natToDigits r2 := by
      apply dropWhile_eq_self_of_all
      intro ch hch
      rw [List.all_eq_true] at hd2
      simp [hd2 ch hch]
    have hcols : getColumnLetter c1 = getColumnLetter c2 := by
      have h1 := congrArg (List.takeWhile (fun ch => !(isDigitC ch))) heq
      rw [takeWhile_append_of_all _ hL1, takeWhile_append_of_all _ hL2,
        htw1, htw2, List.append_nil, List.append_nil] at h1
      exact h1
    have hrows : natToDigits r1 = natToDigits r2 := by
      have h2 := congrArg (List.dropWhile (fun ch => !(isDigitC ch))) heq
      rw [dropWhile_append_of_all _ hL1, dropWhile_append_of_all _ hL2,
        hdw1, hdw2] at h2
      exact h2
    constructor
    · have := congrArg decodeCol hcols
      rw [decodeCol_getColumnLetter c1 hc1, decodeCol_getColumnLetter c2 hc2] at this
      exact this
    · have := congrArg digitsToNat hrows
      rw [hv1, hv2] at this
      exact this

/-- Witness for C5 at concrete inputs: column 701 renders as the
letter-only `ZZ`, and the address equality `D7 = D7` decodes to equal
coordinates. -/
theorem C5_cell_addressing_witness :
    ((getColumnLetter 701 ≠ [] ∧ (getColumnLetter 701).all isUpperAlpha = true) ∧
      (3 = 3 ∧ 7 = 7)) :=
  ⟨C5_cell_addressing.2.2.2.1 701 (by decide),
    C5_cell_addressing.2.2.2.2 3 7 3 7 (by decide) (by decide) (by decide)
      (by decide) (by decide) (by decide) rfl⟩

/- ### Header-scan lemmas (claims C6 and C9) -/

theorem headerScanAux_acc (hdr : Nat → List Char) :
    ∀ fuel c et seen acc,
      (headerScanAux hdr fuel c et seen acc).1 =
        acc ++ (headerScanAux hdr fuel c et seen []).1 ∧
      (headerScanAux hdr fuel c et seen acc).2 =
        (headerScanAux hdr fuel c et seen []).2 := by
  intro fuel
  induction fuel with
  | zero => intro c et seen acc; simp [headerScanAux]
  | succ f ih =>
    intro c et seen acc
    simp only [headerScanAux]
    by_cases hh : trimSpace (hdr c) = []
    · rw [if_pos hh, if_pos hh]
      cases seen with
      | false =>
        simp only [Bool.false_eq_true, if_false]
        exact ih (c + 1) et false acc
      | true =>
        simp only [if_true]
        by_cases hbr : emptyHeaderTailGap ≤ et + 1
        · rw [if_pos hbr, if_pos hbr]
          simp
        · rw [if_neg hbr, if_neg hbr]
          exact ih (c + 1) (et + 1) true acc
    · rw [if_neg hh, if_neg hh]
      simp only [List.nil_append]
      obtain ⟨ha, hb⟩ := ih (c + 1) 0 true (acc ++ [(trimSpace (hdr c), c)])
      obtain ⟨ha2, hb2⟩ := ih (c + 1) 0 true [(trimSpace (hdr c), c)]
      constructor
      · rw [ha, ha2]
        simp
      · rw [hb, hb2]

theorem headerScanAux_mem (hdr : Nat → List Char) :
    ∀ fuel c et seen acc ct,
      et ≤ emptyHeaderTailGap - 1 →
      (seen = true → et + 1 ≤ c ∧ trimSpace (hdr (c - et - 1)) ≠ [] ∧
        ∀ m, c - et ≤ m → m < c → trimSpace (hdr m) = []) →
      (seen = false → et = 0 ∧ ∀ j, j < c → trimSpace (hdr j) = []) →
      c ≤ ct → ct < c + fuel →
      trimSpace (hdr ct) ≠ [] →
      (∀ b, (∃ j, j < b ∧ trimSpace (hdr j) ≠ []) → b + emptyHeaderTailGap ≤ ct →
        ∃ m, b ≤ m ∧ m < b + emptyHeaderTailGap ∧ trimSpace (hdr m) ≠ []) →
      (trimSpace (hdr ct), ct) ∈ (headerScanAux hdr fuel c et seen acc).1 := by
  have e16 : emptyHeaderTailGap = 16 := rfl
  intro fuel
  induction fuel with
  | zero => intro c et seen acc ct _ _ _ h4 h5 _ _; omega
  | succ f ih =>
    intro c et seen acc ct h1 h2 h3 h4 h5 h6 h7
    simp only [headerScanAux]
    by_cases hh : trimSpace (hdr c) = []
    · have hctc : c < ct := by
        rcases Nat.eq_or_lt_of_le h4 with he | hl
        · rw [← he] at h6; exact absurd hh h6
        · exact hl
      rw [if_pos hh]
      cases seen with
      | false =>
        simp only [Bool.false_eq_true, if_false]
        obtain ⟨he0, hj⟩ := h3 rfl
        refine ih (c + 1) et false acc ct h1 (by simp) ?_ (by omega) (by omega) h6 h7
        intro _
        refine ⟨he0, ?_⟩
        intro j hj2
        rcases Nat.lt_or_ge j c with hlt | hge
        · exact hj j hlt
        · have : j = c := by omega
          rw [this]; exact hh
      | true =>
        obtain ⟨hc1, hne1, hall1⟩ := h2 rfl
        simp only [if_true]
        by_cases hbr : emptyHeaderTailGap ≤ et + 1
        · exfalso
          have het : et = 15 := by omega
          obtain ⟨m, hm1, hm2, hm3⟩ := h7 (c - 15)
            ⟨c - et - 1, by omega, hne1⟩ (by omega)
          rcases Nat.lt_or_ge m c with hmc | hmc
          · exact hm3 (hall1 m (by omega) hmc)
          · have : m = c := by omega
            rw [this] at hm3
            exact hm3 hh
        · rw [if_neg hbr]
          refine ih (c + 1) (et + 1) true acc ct (by omega) ?_ (by simp) (by omega)
            (by omega) h6 h7
          intro _
          refine ⟨by omega, ?_, ?_⟩
          · have : c + 1 - (et + 1) - 1 = c - et - 1 := by omega
            rw [this]; exact hne1
          · intro m hm1 hm2
            rcases Nat.lt_or_ge m c with hmc | hmc
            · exact hall1 m (by omega) hmc
            · have : m = c := by omega
              rw [this]; exact hh
    · rw [if_neg hh]
      by_cases hct : ct = c
      · obtain ⟨ha, _⟩ := headerScanAux_acc hdr f (c + 1) 0 true
          (acc ++ [(trimSpace (hdr c), c)])
        rw [ha]
        subst hct
        simp
      · have hcc : c + 1 ≤ ct := by omega
        refine ih (c + 1) 0 true (acc ++ [(trimSpace (hdr c), c)]) ct (by omega) ?_
          (by simp) hcc (by omega) h6 h7
        intro _
        refine ⟨by omega, by simpa using hh, ?_⟩
        intro m hm1 hm2
        omega

theorem headerScanAux_stop (hdr : Nat → List Char) :
    ∀ fuel c et seen acc,
      et ≤ emptyHeaderTailGap - 1 →
      (seen = true → et + 1 ≤ c ∧ trimSpace (hdr (c - et - 1)) ≠ [] ∧
        ∀ m, c - et ≤ m → m < c → trimSpace (hdr m) = []) →
      (seen = false → et = 0 ∧ ∀ j, j < c → trimSpace (hdr j) = []) →
      (headerScanAux hdr fuel c et seen acc).2 = c + fuel ∨
      (emptyHeaderTailGap ≤ (headerScanAux hdr fuel c et seen acc).2 ∧
        (headerScanAux hdr fuel c et seen acc).2 < c + fuel ∧
        trimSpace (hdr ((headerScanAux hdr fuel c et seen acc).2 -
          emptyHeaderTailGap)) ≠ [] ∧
        ∀ m, (headerScanAux hdr fuel c et seen acc).2 -
            (emptyHeaderTailGap - 1) ≤ m →
          m ≤ (headerScanAux hdr fuel c et seen acc).2 →
          trimSpace (hdr m) = []) := by
  have e16 : emptyHeaderTailGap = 16 := rfl
  intro fuel
  induction fuel with
  | zero => intro c et seen acc _ _ _; left; simp [headerScanAux]
  | succ f ih =>
    intro c et seen acc h1 h2 h3
    simp only [headerScanAux]
    by_cases hh : trimSpace (hdr c) = []
    · rw [if_pos hh]
      cases seen with
      | false =>
        simp only [Bool.false_eq_true, if_false]
        obtain ⟨he0, hj⟩ := h3 rfl
        have := ih (c + 1) et false acc h1 (by simp) (by
          intro _
          refine ⟨he0, fun j hj2 => ?_⟩
          rcases Nat.lt_or_ge j c with hlt | hge
          · exact hj j hlt
          · have hjc : j = c := by omega
            rw [hjc]; exact hh)
        rcases this with hl | hr
        · left; omega
        · right; exact ⟨hr.1, by omega, hr.2.2.1, hr.2.2.2⟩
      | true =>
        obtain ⟨hc1, hne1, hall1⟩ := h2 rfl
        simp only [if_true]
        by_cases hbr : emptyHeaderTailGap ≤ et + 1
        · rw [if_pos hbr]
          right
          have het : et = 15 := by omega
          refine ⟨by omega, by omega, ?_, ?_⟩
          · have hsub : c - emptyHeaderTailGap = c - et - 1 := by omega
            rw [hsub]; exact hne1
          · intro m hm1 hm2
            rcases Nat.lt_or_ge m c with hmc | hmc
            · exact hall1 m (by omega) hmc
            · have hmc2 : m = c := by omega
              rw [hmc2]; exact hh
        · rw [if_neg hbr]
          have := ih (c + 1) (et + 1) true acc (by omega) (by
            intro _
            refine ⟨by omega, ?_, ?_⟩
            · have hsub : c + 1 - (et + 1) - 1 = c - et - 1 := by omega
              rw [hsub]; exact hne1
            · intro m hm1 hm2
              rcases Nat.lt_or_ge m c with hmc | hmc
              · exact hall1 m (by omega) hmc
              · have hmc2 : m = c := by omega
                rw [hmc2]; exact hh) (by simp)
          rcases this with hl | hr
          · left; omega
          · right; exact ⟨hr.1, by omega, hr.2.2.1, hr.2.2.2⟩
    · rw [if_neg hh]
      have := ih (c + 1) 0 true (acc ++ [(trimSpace (hdr c), c)]) (by omega) (by
        intro _
        exact ⟨by omega, by simpa using hh, fun m hm1 hm2 => by omega⟩) (by simp)
      rcases this with hl | hr
      · left; omega
      · right; exact ⟨hr.1, by omega, hr.2.2.1, hr.2.2.2⟩

/- ### Claim C6 -/

/-- C6: The header scan reads row 1 left to right from column 0 and
terminates exactly when either (a) the maximum column count
`headerColumnScanLimit = 1024` is reached, or (b) after at least one
non-empty header has been seen, `emptyHeaderTailGap = 16` consecutive
empty header cells are observed (the stop column closes a 16-wide window
of empties directly preceded by a non-empty header).  Consequently an
empty header cell followed by a non-empty one within less than the
threshold does not terminate the scan, and every non-empty header before
and after such a gap is recorded. -/
theorem C6_header_scan :
    (∀ sh : Sheet,
      (headerScan sh).2 = headerColumnScanLimit ∨
      (emptyHeaderTailGap ≤ (headerScan sh).2 ∧
        (headerScan sh).2 < headerColumnScanLimit ∧
        trimSpace (sh.formatted ((headerScan sh).2 - emptyHeaderTailGap) 1) ≠ [] ∧
        ∀ m, (headerScan sh).2 - (emptyHeaderTailGap - 1) ≤ m →
          m ≤ (headerScan sh).2 → trimSpace (sh.formatted m 1) = [])) ∧
    (∀ (sh : Sheet) (ct : Nat), ct < headerColumnScanLimit →
      trimSpace (sh.formatted ct 1) ≠ [] →
      (∀ b, (∃ j, j < b ∧ trimSpace (sh.formatted j 1) ≠ []) →
        b + emptyHeaderTailGap ≤ ct →
        ∃ m, b ≤ m ∧ m < b + emptyHeaderTailGap ∧
          trimSpace (sh.formatted m 1) ≠ []) →
      (trimSpace (sh.formatted ct 1), ct) ∈ (headerScan sh).1) := by
  constructor
  · intro sh
    have := headerScanAux_stop (fun c => sh.formatted c 1) headerColumnScanLimit
      0 0 false [] (by decide) (by intro h; cases h) (fun _ => ⟨rfl, by omega⟩)
    rcases this with hl | hr
    · left; exact hl
    · right; exact ⟨hr.1, hr.2.1, hr.2.2.1, hr.2.2.2⟩
  · intro sh ct hct hne hgap
    exact headerScanAux_mem (fun c => sh.formatted c 1) headerColumnScanLimit
      0 0 false [] ct (by decide) (by intro h; cases h) (fun _ => ⟨rfl, by omega⟩)
      (by omega) (by simpa using hct) hne hgap

/-- Witness for C6: on a sheet whose row 1 has headers in columns 0 and 2
with a single blank in column 1, both headers are recorded — the mid-scan
gap of one blank cell does not stop the scan. -/
theorem C6_header_scan_witness :
    (cs "A", 0) ∈ (headerScan
      { raw := fun _ _ => [],
        formatted := fun c r =>
          if r = 1 then (if c = 0 then cs "A" else if c = 2 then cs "B" else [])
          else [],
        ctype := fun _ _ => CellType.number }).1 ∧
    (cs "B", 2) ∈ (headerScan
      { raw := fun _ _ => [],
        formatted := fun c r =>
          if r = 1 then (if c = 0 then cs "A" else if c = 2 then cs "B" else [])
          else [],
        ctype := fun _ _ => CellType.number }).1 := by
  constructor
  · have := C6_header_scan.2
      { raw := fun _ _ => [],
        formatted := fun c r =>
          if r = 1 then (if c = 0 then cs "A" else if c = 2 then cs "B" else [])
          else [],
        ctype := fun _ _ => CellType.number } 0 (by decide) (by decide)
      (fun b hb hble => absurd hble (by show ¬(b + 16 ≤ 0); omega))
    simpa using this
  · have := C6_header_scan.2
      { raw := fun _ _ => [],
        formatted := fun c r =>
          if r = 1 then (if c = 0 then cs "A" else if c = 2 then cs "B" else [])
          else [],
        ctype := fun _ _ => CellType.number } 2 (by decide) (by decide)
      (fun b hb hble => absurd hble (by show ¬(b + 16 ≤ 2); omega))
    simpa using this

/- ### Claim C9 -/

theorem headerScanAux_pairs (hdr : Nat → List Char) :
    ∀ fuel c et seen,
      List.Pairwise (fun a b => a.2 < b.2) (headerScanAux hdr fuel c et seen []).1 ∧
      ∀ p ∈ (headerScanAux hdr fuel c et seen []).1,
        c ≤ p.2 ∧ p.1 = trimSpace (hdr p.2) ∧ p.1 ≠ [] := by
  intro fuel
  induction fuel with
  | zero =>
    intro c et seen
    simp [headerScanAux]
  | succ f ih =>
    intro c et seen
    simp only [headerScanAux]
    by_cases hh : trimSpace (hdr c) = []
    · rw [if_pos hh]
      cases seen with
      | false =>
        simp only [Bool.false_eq_true, if_false]
        obtain ⟨hp, hm⟩ := ih (c + 1) et false
        exact ⟨hp, fun p hpm => ⟨by have := (hm p hpm).1; omega, (hm p hpm).2⟩⟩
      | true =>
        simp only [if_true]
        by_cases hbr : emptyHeaderTailGap ≤ et + 1
        · rw [if_pos hbr]
          simp
        · rw [if_neg hbr]
          obtain ⟨hp, hm⟩ := ih (c + 1) (et + 1) true
          exact ⟨hp, fun p hpm => ⟨by have := (hm p hpm).1; omega, (hm p hpm).2⟩⟩
    · rw [if_neg hh]
      simp only [List.nil_append]
      obtain ⟨ha, _⟩ := headerScanAux_acc hdr f (c + 1) 0 true
        [(trimSpace (hdr c), c)]
      rw [ha]
      obtain ⟨hp, hm⟩ := ih (c + 1) 0 true
      constructor
      · simp only [List.singleton_append, List.pairwise_cons]
        constructor
        · intro b hb
          have := (hm b hb).1
          omega
        · exact hp
      · intro p hpm
        rcases List.mem_append.mp hpm with h1 | h1
        · rw [List.mem_singleton] at h1
          subst h1
          exact ⟨le_refl _, rfl, hh⟩
        · exact ⟨by have := (hm p h1).1; omega, (hm p h1).2⟩

theorem lookupLast_none (ps : List (List Char × Nat)) (k : List Char) :
    lookupLast ps k = none ↔ ∀ v, (k, v) ∉ ps := by
  induction ps with
  | nil => simp [lookupLast]
  | cons kv rest ih =>
    simp only [lookupLast]
    cases hr : lookupLast rest k with
    | some v =>
      simp only [reduceCtorEq, false_iff]
      push_neg
      obtain ⟨w, hw⟩ : ∃ w, (k, w) ∈ rest := by
        by_contra hcon
        push_neg at hcon
        rw [ih.mpr hcon] at hr
        cases hr
      exact ⟨w, by simp [hw]⟩
    | none =>
      by_cases hk : kv.1 = k
      · rw [if_pos hk]
        simp only [reduceCtorEq, false_iff]
        push_neg
        refine ⟨kv.2, ?_⟩
        rw [← hk]
        simp
      · rw [if_neg hk]
        simp only [true_iff]
        intro v hv
        rcases List.mem_cons.mp hv with h1 | h1
        · exact hk (by rw [← h1])
        · exact (ih.mp hr) v h1

theorem lookupLast_spec : ∀ (ps : List (List Char × Nat)),
    List.Pairwise (fun a b => a.2 < b.2) ps → ∀ (k : List Char) (c : Nat),
    lookupLast ps k = some c ↔
      ((k, c) ∈ ps ∧ ∀ c2, (k, c2) ∈ ps → c2 ≤ c) := by
  intro ps
  induction ps with
  | nil => intro _ k c; simp [lookupLast]
  | cons kv rest ih =>
    intro hsort k c
    rw [List.pairwise_cons] at hsort
    obtain ⟨hlt, hsrest⟩ := hsort
    have ihr := ih hsrest
    simp only [lookupLast]
    cases hr : lookupLast rest k with
    | some v =>
      have hvmem : (k, v) ∈ rest ∧ ∀ c2, (k, c2) ∈ rest → c2 ≤ v := (ihr k v).mp hr
      constructor
      · intro hsome
        have hvc : v = c := by cases hsome; rfl
        subst hvc
        refine ⟨by simp [hvmem.1], ?_⟩
        intro c2 hc2
        rcases List.mem_cons.mp hc2 with h1 | h1
        · have : kv.2 = c2 := by rw [← h1]
          have := hlt _ hvmem.1
          omega
        · exact hvmem.2 c2 h1
      · rintro ⟨hmem, hbnd⟩
        rcases List.mem_cons.mp hmem with h1 | h1
        · exfalso
          have hc : c = kv.2 := by rw [← h1]
          have hv1 : v ≤ c := hbnd v (by simp [hvmem.1])
          have := hlt _ hvmem.1
          omega
        · have : lookupLast rest k = some c :=
            (ihr k c).mpr ⟨h1, fun c2 hc2 => hbnd c2 (by simp [hc2])⟩
          rw [hr] at this
          exact this
    | none =>
      have hnone := (lookupLast_none rest k).mp hr
      by_cases hk : kv.1 = k
      · rw [if_pos hk]
        constructor
        · intro hsome
          have hc : kv.2 = c := by cases hsome; rfl
          refine ⟨?_, ?_⟩
          · rw [← hc, ← hk]
            simp
          · intro c2 hc2
            rcases List.mem_cons.mp hc2 with h1 | h1
            · have : kv.2 = c2 := by rw [← h1]
              omega
            · exact absurd h1 (hnone c2)
        · rintro ⟨hmem, hbnd⟩
          rcases List.mem_cons.mp hmem with h1 | h1
          · have : kv.2 = c := by rw [← h1]
            rw [this]
          · exact absurd h1 (hnone c)
      · rw [if_neg hk]
        constructor
        · intro hsome; cases hsome
        · rintro ⟨hmem, hbnd⟩
          rcases List.mem_cons.mp hmem with h1 | h1
          · exact absurd (by rw [← h1] : kv.1 = k) hk
          · exact absurd h1 (hnone c)

/-- C9: the header map built from row 1 binds each trimmed display name to
a unique column index (lookup is a function of the key), each recorded
pair's key is the trimmed display text of its column, and when the same
trimmed display name appears in more than one scanned header cell, lookup
returns the later (right-most) such column. -/
theorem C9_header_map (sh : Sheet) :
    (∀ p ∈ (headerScan sh).1,
      p.1 = trimSpace (sh.formatted p.2 1) ∧ p.1 ≠ []) ∧
    (∀ k c, lookupLast (headerScan sh).1 k = some c ↔
      ((k, c) ∈ (headerScan sh).1 ∧
        ∀ c2, (k, c2) ∈ (headerScan sh).1 → c2 ≤ c)) := by
  obtain ⟨hp, hm⟩ :=
    headerScanAux_pairs (fun c => sh.formatted c 1) headerColumnScanLimit 0 0 false
  constructor
  · intro p hpm
    exact (hm p hpm).2
  · intro k c
    exact lookupLast_spec _ hp k c

/-- Witness for C9 on a sheet whose row 1 repeats the display name `A` in
columns 0 and 1: the map binds `A` to the right-most column 1. -/
theorem C9_header_map_witness :
    lookupLast (headerScan
      { raw := fun _ _ => [],
        formatted := fun c r =>
          if r = 1 ∧ (c = 0 ∨ c = 1) then cs "A" else [],
        ctype := fun _ _ => CellType.number }).1 (cs "A") = some 1 := by
  apply (C9_header_map
    { raw := fun _ _ => [],
      formatted := fun c r =>
        if r = 1 ∧ (c = 0 ∨ c = 1) then cs "A" else [],
      ctype := fun _ _ => CellType.number }).2 (cs "A") 1 |>.mpr
  constructor
  · decide
  · intro c2 hc2
    have hps : (headerScan
        { raw := fun _ _ => [],
          formatted := fun c r =>
            if r = 1 ∧ (c = 0 ∨ c = 1) then cs "A" else [],
          ctype := fun _ _ => CellType.number }).1 =
        [(cs "A", 0), (cs "A", 1)] := by decide
    rw [hps] at hc2
    simp only [List.mem_cons, List.mem_singleton, Prod.mk.injEq,
      List.not_mem_nil, or_false] at hc2
    rcases hc2 with ⟨-, h⟩ | ⟨-, h⟩ <;> omega

/- ### Data-scan lemmas (claims C3 and C10) -/

theorem dataScanAux_acc (P : ConvParams) (sh : Sheet) (fields : List FieldInfo)
    (u : Bool) :
    ∀ fuel r ce acc,
      dataScanAux P sh fields u fuel r ce acc =
        acc ++ dataScanAux P sh fields u fuel r ce [] := by
  intro fuel
  induction fuel with
  | zero => intro r ce acc; simp [dataScanAux]
  | succ f ih =>
    intro r ce acc
    simp only [dataScanAux]
    by_cases hh : rowEmptyCode sh fields r = true
    · rw [if_pos hh, if_pos hh]
      by_cases hbr : emptyDataRowsGap ≤ ce + 1
      · rw [if_pos hbr, if_pos hbr]; simp
      · rw [if_neg hbr, if_neg hbr]
        exact ih (r + 1) (ce + 1) acc
    · rw [if_neg hh, if_neg hh]
      simp only [List.nil_append]
      rw [ih (r + 1) 0 (acc ++ [(r, buildRec P sh fields u r)]),
        ih (r + 1) 0 [(r, buildRec P sh fields u r)]]
      simp

theorem dataScanAux_mem (P : ConvParams) (sh : Sheet) (fields : List FieldInfo)
    (u : Bool) :
    ∀ fuel r ce acc rt,
      ce ≤ emptyDataRowsGap - 1 →
      ce + 2 ≤ r →
      (∀ m, r - ce ≤ m → m < r → rowEmptyCode sh fields m = true) →
      r ≤ rt → rt < r + fuel →
      rowEmptyCode sh fields rt = false →
      (∀ b, 2 ≤ b → b + emptyDataRowsGap ≤ rt →
        ∃ m, b ≤ m ∧ m < b + emptyDataRowsGap ∧
          rowEmptyCode sh fields m = false) →
      (rt, buildRec P sh fields u rt) ∈
        dataScanAux P sh fields u fuel r ce acc := by
  have e50 : emptyDataRowsGap = 50 := rfl
  intro fuel
  induction fuel with
  | zero => intro r ce acc rt _ _ _ h4 h5 _ _; omega
  | succ f ih =>
    intro r ce acc rt h1 h2 h3 h4 h5 h6 h7
    simp only [dataScanAux]
    by_cases hh : rowEmptyCode sh fields r = true
    · have hrtr : r < rt := by
        rcases Nat.eq_or_lt_of_le h4 with he | hl
        · rw [← he] at h6; rw [h6] at hh; cases hh
        · exact hl
      rw [if_pos hh]
      by_cases hbr : emptyDataRowsGap ≤ ce + 1
      · exfalso
        have hce : ce = 49 := by omega
        obtain ⟨m, hm1, hm2, hm3⟩ := h7 (r - 49) (by omega) (by omega)
        rcases Nat.lt_or_ge m r with hmr | hmr
        · rw [h3 m (by omega) hmr] at hm3; cases hm3
        · have hmr2 : m = r := by omega
          rw [hmr2, hh] at hm3; cases hm3
      · rw [if_neg hbr]
        refine ih (r + 1) (ce + 1) acc rt (by omega) (by omega) ?_ (by omega)
          (by omega) h6 h7
        intro m hm1 hm2
        rcases Nat.lt_or_ge m r with hmr | hmr
        · exact h3 m (by omega) hmr
        · have hmr2 : m = r := by omega
          rw [hmr2]; exact hh
    · rw [if_neg hh]
      by_cases hrt : rt = r
      · rw [dataScanAux_acc P sh fields u f (r + 1) 0
          (acc ++ [(r, buildRec P sh fields u r)])]
        subst hrt
        simp
      · refine ih (r + 1) 0 (acc ++ [(r, buildRec P sh fields u r)]) rt
          (by omega) (by omega) (fun m hm1 hm2 => absurd hm2 (by omega))
          (by omega) (by omega) h6 h7

theorem dataScanAux_no_empty (P : ConvParams) (sh : Sheet)
    (fields : List FieldInfo) (u : Bool) :
    ∀ fuel r ce p, p ∈ dataScanAux P sh fields u fuel r ce [] →
      rowEmptyCode sh fields p.1 = false ∧
      p.2 = buildRec P sh fields u p.1 := by
  intro fuel
  induction fuel with
  | zero => intro r ce p hp; simp [dataScanAux] at hp
  | succ f ih =>
    intro r ce p hp
    simp only [dataScanAux] at hp
    by_cases hh : rowEmptyCode sh fields r = true
    · rw [if_pos hh] at hp
      by_cases hbr : emptyDataRowsGap ≤ ce + 1
      · rw [if_pos hbr] at hp
        simp at hp
      · rw [if_neg hbr] at hp
        exact ih (r + 1) (ce + 1) p hp
    · rw [if_neg hh] at hp
      rw [List.nil_append, dataScanAux_acc P sh fields u f (r + 1) 0
        [(r, buildRec P sh fields u r)]] at hp
      rcases List.mem_append.mp hp with hp1 | hp2
      · rw [List.mem_singleton] at hp1
        subst hp1
        exact ⟨Bool.eq_false_iff.mpr hh, rfl⟩
      · exact ih (r + 1) 0 p hp2

theorem dataScanAux_all_empty (P : ConvParams) (sh : Sheet)
    (fields : List FieldInfo) (u : Bool)
    (hall : ∀ m, rowEmptyCode sh fields m = true) :
    ∀ fuel r ce acc, dataScanAux P sh fields u fuel r ce acc = acc := by
  intro fuel
  induction fuel with
  | zero => intro r ce acc; rfl
  | succ f ih =>
    intro r ce acc
    simp only [dataScanAux]
    rw [if_pos (hall r)]
    by_cases hbr : emptyDataRowsGap ≤ ce + 1
    · rw [if_pos hbr]
    · rw [if_neg hbr]; exact ih (r + 1) (ce + 1) acc

/- ### Claim C3 -/

/-- C3 counterexample: with one bound column whose cell on row 2 has raw
text `5` but empty formatted text, the data scan classifies the row as
empty — the raw representation is never consulted (src/unmarshal.go:153-162
reads only formatted values) — and the row contributes no record, although
under the claimed both-representations test the row would be non-empty. -/
theorem C3_data_scan_counterexample :
    ∃ (sh : Sheet) (fields : List FieldInfo) (r : Nat),
      rowEmptyCode sh fields r = true ∧
      ¬ (∀ fi ∈ fields, trimSpace (sh.raw fi.colIdx r) = []) ∧
      ∀ (P : ConvParams) (u : Bool), dataScan P sh fields u [] = [] := by
  refine ⟨{ raw := fun c r => if c = 0 ∧ r = 2 then cs "5" else [],
            formatted := fun _ _ => [],
            ctype := fun _ _ => CellType.str },
          [⟨0, FieldKind.stringK, [], none⟩], 2, ?_, ?_, ?_⟩
  · decide
  · intro hcon
    have hc := hcon ⟨0, FieldKind.stringK, [], none⟩ (by simp)
    revert hc
    decide
  · intro P u
    exact dataScanAux_all_empty P
      { raw := fun c r => if c = 0 ∧ r = 2 then cs "5" else [],
        formatted := fun _ _ => [],
        ctype := fun _ _ => CellType.str }
      [⟨0, FieldKind.stringK, [], none⟩] u (fun m => rfl) 99998 2 0 []

/-- C3 (corrected): during the data scan a row is classified as empty
exactly when every bound column's FORMATTED value is trim-empty — the raw
representation is not consulted, contrary to the claimed
both-representations test (refuted by `C3_data_scan_counterexample`).  The
behavioural part of the claim holds: an empty row contributes no record
and increments the consecutive-empty counter, reaching the gap threshold
`emptyDataRowsGap = 50` stops the scan with the destination unchanged, a
non-empty row resets the counter to zero and appends its record, every
record in the scan's output stems from a row classified non-empty, and a
non-empty row preceded only by non-empty-row gaps smaller than the
threshold is still read. -/
theorem C3_data_scan_empty_rows :
    (∀ (sh : Sheet) (fields : List FieldInfo) (r : Nat),
      rowEmptyCode sh fields r = true ↔
        ∀ fi ∈ fields, trimSpace (sh.formatted fi.colIdx r) = []) ∧
    (∀ (P : ConvParams) (sh : Sheet) (fields : List FieldInfo) (u : Bool)
        (fuel r ce : Nat) (acc : List (Nat × List (Option CellVal))),
      (rowEmptyCode sh fields r = true → ce + 1 < emptyDataRowsGap →
        dataScanAux P sh fields u (fuel + 1) r ce acc =
          dataScanAux P sh fields u fuel (r + 1) (ce + 1) acc) ∧
      (rowEmptyCode sh fields r = true → emptyDataRowsGap ≤ ce + 1 →
        dataScanAux P sh fields u (fuel + 1) r ce acc = acc) ∧
      (rowEmptyCode sh fields r = false →
        dataScanAux P sh fields u (fuel + 1) r ce acc =
          dataScanAux P sh fields u fuel (r + 1) 0
            (acc ++ [(r, buildRec P sh fields u r)]))) ∧
    (∀ (P : ConvParams) (sh : Sheet) (fields : List FieldInfo) (u : Bool) p,
      p ∈ dataScan P sh fields u [] → rowEmptyCode sh fields p.1 = false) ∧
    (∀ (P : ConvParams) (sh : Sheet) (fields : List FieldInfo) (u : Bool)
        (rt : Nat),
      2 ≤ rt → rt < 100000 → rowEmptyCode sh fields rt = false →
      (∀ b, 2 ≤ b → b + emptyDataRowsGap ≤ rt →
        ∃ m, b ≤ m ∧ m < b + emptyDataRowsGap ∧
          rowEmptyCode sh fields m = false) →
      (rt, buildRec P sh fields u rt) ∈ dataScan P sh fields u []) := by
  refine ⟨?_, ?_, ?_, ?_⟩
  · intro sh fields r
    simp [rowEmptyCode, List.all_eq_true]
  · intro P sh fields u fuel r ce acc
    refine ⟨?_, ?_, ?_⟩
    · intro h1 h2
      simp only [dataScanAux]
      rw [if_pos h1, if_neg (by omega : ¬emptyDataRowsGap ≤ ce + 1)]
    · intro h1 h2
      simp only [dataScanAux]
      rw [if_pos h1, if_pos h2]
    · intro h1
      simp only [dataScanAux]
      rw [if_neg (by simp [h1])]
  · intro P sh fields u p hp
    exact (dataScanAux_no_empty P sh fields u 99998 2 0 p hp).1
  · intro P sh fields u rt h1 h2 h3 h4
    exact dataScanAux_mem P sh fields u 99998 2 0 [] rt (by decide) (by omega)
      (fun m hm1 hm2 => absurd hm2 (by omega)) h1 (by omega) h3 h4

/-- Witness for C3 on a concrete sheet (one bound column; data rows: `x` in
row 2, a blank row 3, `y` in row 4): the non-empty row 4 after the
one-row gap is still read, and on the blank row 3 one scan step just
increments the counter. -/
theorem C3_data_scan_empty_rows_witness :
    (4, buildRec ⟨fun _ => none, fun _ _ => none⟩
        { raw := fun _ _ => [],
          formatted := fun c r =>
            if c = 0 ∧ r = 2 then cs "x"
            else if c = 0 ∧ r = 4 then cs "y" else [],
          ctype := fun _ _ => CellType.str }
        [⟨0, FieldKind.stringK, [], none⟩] false 4) ∈
      dataScan ⟨fun _ => none, fun _ _ => none⟩
        { raw := fun _ _ => [],
          formatted := fun c r =>
            if c = 0 ∧ r = 2 then cs "x"
            else if c = 0 ∧ r = 4 then cs "y" else [],
          ctype := fun _ _ => CellType.str }
        [⟨0, FieldKind.stringK, [], none⟩] false [] ∧
    dataScanAux ⟨fun _ => none, fun _ _ => none⟩
        { raw := fun _ _ => [],
          formatted := fun c r =>
            if c = 0 ∧ r = 2 then cs "x"
            else if c = 0 ∧ r = 4 then cs "y" else [],
          ctype := fun _ _ => CellType.str }
        [⟨0, FieldKind.stringK, [], none⟩] false 6 3 0 [] =
      dataScanAux ⟨fun _ => none, fun _ _ => none⟩
        { raw := fun _ _ => [],
          formatted := fun c r =>
            if c = 0 ∧ r = 2 then cs "x"
            else if c = 0 ∧ r = 4 then cs "y" else [],
          ctype := fun _ _ => CellType.str }
        [⟨0, FieldKind.stringK, [], none⟩] false 5 4 1 [] := by
  constructor
  · exact C3_data_scan_empty_rows.2.2.2 ⟨fun _ => none, fun _ _ => none⟩
      { raw := fun _ _ => [],
        formatted := fun c r =>
          if c = 0 ∧ r = 2 then cs "x"
          else if c = 0 ∧ r = 4 then cs "y" else [],
        ctype := fun _ _ => CellType.str }
      [⟨0, FieldKind.stringK, [], none⟩] false 4 (by decide) (by decide)
      (by decide)
      (fun b hb hble => absurd hble (by show ¬(b + 50 ≤ 4); omega))
  · exact (C3_data_scan_empty_rows.2.1 ⟨fun _ => none, fun _ _ => none⟩
      { raw := fun _ _ => [],
        formatted := fun c r =>
          if c = 0 ∧ r = 2 then cs "x"
          else if c = 0 ∧ r = 4 then cs "y" else [],
        ctype := fun _ _ => CellType.str }
      [⟨0, FieldKind.stringK, [], none⟩] false 5 3 0 []).1 (by decide)
      (by decide)

/- ### Claim C10 -/

theorem unmarshalTypedModel_frame (P : ConvParams) (sh : Sheet)
    (destTy : GoType) (destNil : Bool) (sd : List FieldDef) (u : Bool)
    (init : List (Nat × List (Option CellVal))) :
    (∃ tail, (unmarshalTypedModel P sh destTy destNil sd u init).2 =
      init ++ tail) ∧
    ((unmarshalTypedModel P sh destTy destNil sd u init).1 ≠ none →
      (unmarshalTypedModel P sh destTy destNil sd u init).2 = init) := by
  have hds : ∀ fields, dataScan P sh fields u init =
      init ++ dataScan P sh fields u [] :=
    fun fields => dataScanAux_acc P sh fields u 99998 2 0 init
  have hsucc : ∀ destTy2 : GoType,
      unmarshalTypedModel P sh destTy2 destNil sd u init =
        (if (headerScan sh).1 = [] then (none, init)
         else (none, dataScan P sh (buildFields (headerScan sh).1 sd) u init)) →
      (∃ tail, (unmarshalTypedModel P sh destTy2 destNil sd u init).2 =
        init ++ tail) ∧
      ((unmarshalTypedModel P sh destTy2 destNil sd u init).1 ≠ none →
        (unmarshalTypedModel P sh destTy2 destNil sd u init).2 = init) := by
    intro destTy2 hred
    rw [hred]
    by_cases hhd : (headerScan sh).1 = []
    · rw [if_pos hhd]
      exact ⟨⟨[], (List.append_nil init).symm⟩, fun _ => rfl⟩
    · rw [if_neg hhd]
      exact ⟨⟨dataScan P sh (buildFields (headerScan sh).1 sd) u [], hds _⟩,
        fun hne => absurd rfl hne⟩
  rcases destTy with _ | _ | e | inner
  · exact ⟨⟨[], (List.append_nil init).symm⟩, fun _ => rfl⟩
  · exact ⟨⟨[], (List.append_nil init).symm⟩, fun _ => rfl⟩
  · exact ⟨⟨[], (List.append_nil init).symm⟩, fun _ => rfl⟩
  · cases destNil with
    | true => exact ⟨⟨[], (List.append_nil init).symm⟩, fun _ => rfl⟩
    | false =>
      rcases inner with _ | _ | elem | e2
      · exact ⟨⟨[], (List.append_nil init).symm⟩, fun _ => rfl⟩
      · exact ⟨⟨[], (List.append_nil init).symm⟩, fun _ => rfl⟩
      · rcases elem with _ | _ | e3 | e3
        · exact hsucc (GoType.ptrT (GoType.sliceT GoType.structT)) rfl
        · exact ⟨⟨[], (List.append_nil init).symm⟩, fun _ => rfl⟩
        · exact ⟨⟨[], (List.append_nil init).symm⟩, fun _ => rfl⟩
        · rcases e3 with _ | _ | e4 | e4
          · exact hsucc (GoType.ptrT (GoType.sliceT (GoType.ptrT
              GoType.structT))) rfl
          · exact ⟨⟨[], (List.append_nil init).symm⟩, fun _ => rfl⟩
          · exact ⟨⟨[], (List.append_nil init).symm⟩, fun _ => rfl⟩
          · exact ⟨⟨[], (List.append_nil init).symm⟩, fun _ => rfl⟩
      · exact ⟨⟨[], (List.append_nil init).symm⟩, fun _ => rfl⟩

/-- C10: the destination slice is only ever appended to — for every call of
`Unmarshal` the contents of the destination before the call are preserved
unchanged in their original (leading) positions and every decoded record
follows them, and whenever a non-nil error is returned the destination is
exactly its original contents (no partial result; never truncated,
cleared, or overwritten). -/
theorem C10_destination_preserved :
    ∀ (P : ConvParams) (file : Option Workbook) (destTy : GoType)
      (destNil : Bool) (sd : List FieldDef)
      (init : List (Nat × List (Option CellVal))),
      (∃ tail, (UnmarshalModel P file destTy destNil sd init).2 =
        init ++ tail) ∧
      ((UnmarshalModel P file destTy destNil sd init).1 ≠ none →
        (UnmarshalModel P file destTy destNil sd init).2 = init) := by
  intro P file destTy destNil sd init
  cases file with
  | none => exact ⟨⟨[], (List.append_nil init).symm⟩, fun _ => rfl⟩
  | some wb =>
    by_cases hs : wb.sheets = []
    · have hred : UnmarshalModel P (some wb) destTy destNil sd init =
          (some (cs "no sheet found"), init) := by
        simp [UnmarshalModel, hs]
      rw [hred]
      exact ⟨⟨[], (List.append_nil init).symm⟩, fun _ => rfl⟩
    · have hred : UnmarshalModel P (some wb) destTy destNil sd init =
          unmarshalTypedModel P wb.sheet destTy destNil sd wb.date1904 init := by
        simp [UnmarshalModel, hs]
      rw [hred]
      exact unmarshalTypedModel_frame P wb.sheet destTy destNil sd wb.date1904
        init

/-- Witness for C10: on a nil file handle with a one-element destination
the call errors and the destination is returned untouched. -/
theorem C10_destination_preserved_witness :
    (UnmarshalModel ⟨fun _ => none, fun _ _ => none⟩ none GoType.structT false
      [] [(7, [])]).2 = [(7, [])] :=
  (C10_destination_preserved ⟨fun _ => none, fun _ _ => none⟩ none
    GoType.structT false [] [(7, [])]).2 (by decide)

/- ### Claim C7 -/

/-- The destination shapes the spec calls valid (spec language, for the
error-iff characterisation): a non-nil pointer to a slice whose elements
are structs or pointers to structs. -/
def validDestSpec (destTy : GoType) (destNil : Bool) : Prop :=
  destNil = false ∧
    (destTy = GoType.ptrT (GoType.sliceT GoType.structT) ∨
     destTy = GoType.ptrT (GoType.sliceT (GoType.ptrT GoType.structT)))

theorem unmarshalTypedModel_err (P : ConvParams) (sh : Sheet)
    (destTy : GoType) (destNil : Bool) (sd : List FieldDef) (u : Bool)
    (init : List (Nat × List (Option CellVal))) :
    ((unmarshalTypedModel P sh destTy destNil sd u init).1 ≠ none ↔
      ¬ validDestSpec destTy destNil) ∧
    (validDestSpec destTy destNil → (headerScan sh).1 = [] →
      unmarshalTypedModel P sh destTy destNil sd u init = (none, init)) := by
  have hsucc : ∀ destTy2 : GoType, validDestSpec destTy2 destNil →
      unmarshalTypedModel P sh destTy2 destNil sd u init =
        (if (headerScan sh).1 = [] then (none, init)
         else (none, dataScan P sh (buildFields (headerScan sh).1 sd) u init)) →
      (((unmarshalTypedModel P sh destTy2 destNil sd u init).1 ≠ none ↔
        ¬ validDestSpec destTy2 destNil) ∧
       (validDestSpec destTy2 destNil → (headerScan sh).1 = [] →
        unmarshalTypedModel P sh destTy2 destNil sd u init = (none, init))) := by
    intro destTy2 hv hred
    constructor
    · rw [hred]
      by_cases hhd : (headerScan sh).1 = []
      · rw [if_pos hhd]
        exact iff_of_false (fun h => h rfl) (fun h => h hv)
      · rw [if_neg hhd]
        exact iff_of_false (fun h => h rfl) (fun h => h hv)
    · intro _ hhd
      rw [hred, if_pos hhd]
  rcases destTy with _ | _ | e | inner
  · constructor
    · exact iff_of_true (fun h => Option.noConfusion h) (by simp [validDestSpec])
    · intro hv; exact absurd hv (by simp [validDestSpec])
  · constructor
    · exact iff_of_true (fun h => Option.noConfusion h) (by simp [validDestSpec])
    · intro hv; exact absurd hv (by simp [validDestSpec])
  · constructor
    · exact iff_of_true (fun h => Option.noConfusion h) (by simp [validDestSpec])
    · intro hv; exact absurd hv (by simp [validDestSpec])
  · cases destNil with
    | true =>
      constructor
      · exact iff_of_true (fun h => Option.noConfusion h)
          (by simp [validDestSpec])
      · intro hv; exact absurd hv (by simp [validDestSpec])
    | false =>
      rcases inner with _ | _ | elem | e2
      · constructor
        · exact iff_of_true (fun h => Option.noConfusion h)
            (by simp [validDestSpec])
        · intro hv; exact absurd hv (by simp [validDestSpec])
      · constructor
        · exact iff_of_true (fun h => Option.noConfusion h)
            (by simp [validDestSpec])
        · intro hv; exact absurd hv (by simp [validDestSpec])
      · rcases elem with _ | _ | e3 | e3
        · exact hsucc (GoType.ptrT (GoType.sliceT GoType.structT))
            ⟨rfl, Or.inl rfl⟩ rfl
        · constructor
          · exact iff_of_true (fun h => Option.noConfusion h)
              (by simp [validDestSpec])
          · intro hv; exact absurd hv (by simp [validDestSpec])
        · constructor
          · exact iff_of_true (fun h => Option.noConfusion h)
              (by simp [validDestSpec])
          · intro hv; exact absurd hv (by simp [validDestSpec])
        · rcases e3 with _ | _ | e4 | e4
          · exact hsucc (GoType.ptrT (GoType.sliceT (GoType.ptrT
              GoType.structT))) ⟨rfl, Or.inr rfl⟩ rfl
          · constructor
            · exact iff_of_true (fun h => Option.noConfusion h)
                (by simp [validDestSpec])
            · intro hv; exact absurd hv (by simp [validDestSpec])
          · constructor
            · exact iff_of_true (fun h => Option.noConfusion h)
                (by simp [validDestSpec])
            · intro hv; exact absurd hv (by simp [validDestSpec])
          · constructor
            · exact iff_of_true (fun h => Option.noConfusion h)
                (by simp [validDestSpec])
            · intro hv; exact absurd hv (by simp [validDestSpec])
      · constructor
        · exact iff_of_true (fun h => Option.noConfusion h)
            (by simp [validDestSpec])
        · intro hv; exact absurd hv (by simp [validDestSpec])

/-- C7: `Unmarshal` returns a non-nil error exactly when the file handle
is nil, the workbook has zero sheets, or the destination is not a non-nil
pointer to a slice of structs or of pointers to structs; every such error
leaves the destination untouched (no partial result); and in every other
case — including a header row that yields zero headers, which succeeds
trivially with zero records, and any per-cell coercion behaviour (the
conversion parameters `P` are universally quantified) — the error is nil. -/
theorem C7_usage_errors :
    ∀ (P : ConvParams) (file : Option Workbook) (destTy : GoType)
      (destNil : Bool) (sd : List FieldDef)
      (init : List (Nat × List (Option CellVal))),
      ((UnmarshalModel P file destTy destNil sd init).1 ≠ none ↔
        (file = none ∨ (∃ wb, file = some wb ∧ wb.sheets = []) ∨
          ¬ validDestSpec destTy destNil)) ∧
      ((UnmarshalModel P file destTy destNil sd init).1 ≠ none →
        (UnmarshalModel P file destTy destNil sd init).2 = init) ∧
      (∀ wb, file = some wb → wb.sheets ≠ [] → validDestSpec destTy destNil →
        (headerScan wb.sheet).1 = [] →
        UnmarshalModel P file destTy destNil sd init = (none, init)) := by
  intro P file destTy destNil sd init
  refine ⟨?_, ?_, ?_⟩
  · cases file with
    | none =>
      exact iff_of_true (fun h => Option.noConfusion h) (Or.inl rfl)
    | some wb =>
      by_cases hs : wb.sheets = []
      · refine iff_of_true ?_ (Or.inr (Or.inl ⟨wb, rfl, hs⟩))
        intro h
        rw [show UnmarshalModel P (some wb) destTy destNil sd init =
          (some (cs "no sheet found"), init) by simp [UnmarshalModel, hs]] at h
        exact Option.noConfusion h
      · rw [show UnmarshalModel P (some wb) destTy destNil sd init =
          unmarshalTypedModel P wb.sheet destTy destNil sd wb.date1904 init
          by simp [UnmarshalModel, hs]]
        rw [(unmarshalTypedModel_err P wb.sheet destTy destNil sd wb.date1904
          init).1]
        constructor
        · intro h; exact Or.inr (Or.inr h)
        · rintro (h | ⟨wb2, hw, hs2⟩ | h)
          · exact Option.noConfusion h
          · injection hw with h3
            subst h3
            exact absurd hs2 hs
          · exact h
  · cases file with
    | none => intro _; rfl
    | some wb =>
      by_cases hs : wb.sheets = []
      · intro _
        rw [show UnmarshalModel P (some wb) destTy destNil sd init =
          (some (cs "no sheet found"), init) by simp [UnmarshalModel, hs]]
      · rw [show UnmarshalModel P (some wb) destTy destNil sd init =
          unmarshalTypedModel P wb.sheet destTy destNil sd wb.date1904 init
          by simp [UnmarshalModel, hs]]
        exact (unmarshalTypedModel_frame P wb.sheet destTy destNil sd
          wb.date1904 init).2
  · intro wb hf hs hv hhd
    subst hf
    rw [show UnmarshalModel P (some wb) destTy destNil sd init =
      unmarshalTypedModel P wb.sheet destTy destNil sd wb.date1904 init
      by simp [UnmarshalModel, hs]]
    exact (unmarshalTypedModel_err P wb.sheet destTy destNil sd wb.date1904
      init).2 hv hhd

set_option maxRecDepth 8192 in
/-- Witness for C7: a workbook with one sheet whose header row is entirely
blank gives no error and an unchanged (empty) destination, under a valid
destination shape. -/
theorem C7_usage_errors_witness :
    UnmarshalModel ⟨fun _ => none, fun _ _ => none⟩
      (some ⟨[cs "Sheet1"],
        ⟨fun _ _ => [], fun _ _ => [], fun _ _ => CellType.number⟩, false⟩)
      (GoType.ptrT (GoType.sliceT GoType.structT)) false [] [] = (none, []) :=
  (C7_usage_errors ⟨fun _ => none, fun _ _ => none⟩
    (some ⟨[cs "Sheet1"],
      ⟨fun _ _ => [], fun _ _ => [], fun _ _ => CellType.number⟩, false⟩)
    (GoType.ptrT (GoType.sliceT GoType.structT)) false [] []).2.2
    ⟨[cs "Sheet1"],
      ⟨fun _ _ => [], fun _ _ => [], fun _ _ => CellType.number⟩, false⟩
    rfl (by simp) ⟨rfl, Or.inl rfl⟩ (by decide)

/- ### Claim C8 -/

/-- C8: For a timestamp field, a non-numeric cell's formatted text is
parsed by trying the declared custom format first (a successful custom
parse is the final answer), and only when there is no custom format or it
fails does the parse fall through the fixed ordered common-format list
(`commonFormats`, in which the first success wins and a failed format
passes to the next); concretely `2024-01-15` fails the first two common
formats and parses via the date-only fallback `2006-01-02` with no custom
format declared, `not-a-date` parses under no format, and when parsing
fails the coercion of that field alone fails, leaving it unset/zero
(`populateField` yields `none`). -/
theorem C8_time_parsing :
    (∀ (s fmtStr : List Char) (loc : Option (List Char)) (t : TimeVal),
      s ≠ [] → fmtStr ≠ [] → tryFormat fmtStr s loc = some t →
      parseTimeGo s fmtStr loc = some t) ∧
    (∀ (s fmtStr : List Char) (loc : Option (List Char)),
      s ≠ [] → (fmtStr = [] ∨ tryFormat fmtStr s loc = none) →
      parseTimeGo s fmtStr loc = tryFormats commonFormats s loc) ∧
    (∀ (f : List Char) (rest : List (List Char)) (s : List Char)
        (loc : Option (List Char)) (t : TimeVal),
      tryFormat f s loc = some t → tryFormats (f :: rest) s loc = some t) ∧
    (∀ (f : List Char) (rest : List (List Char)) (s : List Char)
        (loc : Option (List Char)),
      tryFormat f s loc = none →
      tryFormats (f :: rest) s loc = tryFormats rest s loc) ∧
    (parseTimeGo (cs "2024-01-15") [] none =
      some ⟨⟨2024, 1, 15, 0, 0, 0, none⟩, none⟩ ∧
     tryFormat (cs "2006-01-02 15:04:05") (cs "2024-01-15") none = none ∧
     tryFormat (cs "2006-01-02T15:04:05Z07:00") (cs "2024-01-15") none = none ∧
     tryFormat (cs "2006-01-02") (cs "2024-01-15") none =
       some ⟨⟨2024, 1, 15, 0, 0, 0, none⟩, none⟩) ∧
    (parseTimeGo (cs "not-a-date") [] none = none) ∧
    (∀ (P : ConvParams) (raw fm : List Char) (ctype : CellType)
        (tf : List Char) (loc : Option (List Char)) (u : Bool),
      ctype ≠ CellType.number → parseTimeGo fm tf loc = none →
      populateField P raw fm ctype FieldKind.timeK tf loc u = none) := by
  refine ⟨?_, ?_, ?_, ?_, ?_, ?_, ?_⟩
  · intro s fmtStr loc t hs hf ht
    unfold parseTimeGo
    rw [if_neg hs, if_pos hf, ht]
  · intro s fmtStr loc hs hor
    unfold parseTimeGo
    rw [if_neg hs]
    by_cases hf : fmtStr = []
    · rw [if_neg (show ¬fmtStr ≠ [] by simp [hf])]
    · rcases hor with h1 | h2
      · exact absurd h1 hf
      · rw [if_pos hf, h2]
  · intro f rest s loc t ht
    simp only [tryFormats]
    rw [ht]
  · intro f rest s loc hn
    simp only [tryFormats]
    rw [hn]
  · refine ⟨?_, ?_, ?_, ?_⟩ <;> decide
  · decide
  · intro P raw fm ctype tf loc u hc hp
    simp only [populateField]
    by_cases he : trimSpace fm = [] ∧ trimSpace raw = []
    · rw [if_pos he]
    · rw [if_neg he]
      simp only [convertCell]
      rw [if_neg hc, hp]

/-- Witness for C8: a declared custom month-first format `01/02/2006`
takes priority over the day-first common formats on `03/04/2024` (the
result is March 4th, not April 3rd), and a timestamp field whose
non-numeric cell fails every format is left unset. -/
theorem C8_time_parsing_witness :
    parseTimeGo (cs "03/04/2024") (cs "01/02/2006") none =
      some ⟨⟨2024, 3, 4, 0, 0, 0, none⟩, none⟩ ∧
    populateField ⟨fun _ => none, fun _ _ => none⟩ (cs "x") (cs "not-a-date")
      CellType.str FieldKind.timeK [] none false = none := by
  constructor
  · exact C8_time_parsing.1 (cs "03/04/2024") (cs "01/02/2006") none
      ⟨⟨2024, 3, 4, 0, 0, 0, none⟩, none⟩ (by decide) (by decide) (by decide)
  · exact C8_time_parsing.2.2.2.2.2.2 ⟨fun _ => none, fun _ _ => none⟩
      (cs "x") (cs "not-a-date") CellType.str [] none false (by decide)
      (by decide)

end Xlsx
